import Mathlib

/-!
Verification of the 2048 grid engine implemented in `src/main.rs`.

The grid is a `Vec<Vec<u32>>`; value `0` is an empty cell.  Tile arithmetic is
modelled exactly on `Nat`: merging doubles a tile with `2 * v`, matching
`row[i] *= 2` on in-range `u32` values (the game never approaches `2^32`,
where a Rust debug build would abort rather than wrap).

Each imperative loop of the Rust code is translated into a recursive function
or a fold over the same index range, cell accesses `row[k]` become
`l.getD k 0` and assignments become `l.set k v`.
-/

namespace Game2048

/-- Grid of tile values, row major, `0` meaning empty (`Vec<Vec<u32>>`). -/
abbrev Grid := List (List Nat)

/-- Swap of the adjacent cells `k` and `k+1` of a line.  This is
`row.swap(k, k-1)` of `move_left`/`move_right`; the two-assignment variant in
the column loops of `move_up`/`move_down` overwrites a cell that is known to
be `0` with the other cell's value and zeroes the source, which has exactly
this effect. -/
def swapAdj (l : List Nat) (k : Nat) : List Nat :=
  (l.set k (l.getD (k + 1) 0)).set (k + 1) (l.getD k 0)

/-- Inner `while` of the first (and third) loop of `move_left` / `move_up`:
`while k > 0 && row[k-1] == 0 { row.swap(k, k-1); moved = true; k -= 1; }`.
The first argument is the current position `k`; the flag is `moved`. -/
def slideL : Nat → List Nat → Bool → List Nat × Bool
  | 0, l, m => (l, m)
  | k + 1, l, m =>
    if l.getD k 0 = 0 then slideL k (swapAdj l k) true else (l, m)

/-- The same `while` loop as `slideL` for the third (re-compaction) loop of
`move_left` / `move_up`, which does not touch the `moved` flag. -/
def slideN : Nat → List Nat → List Nat
  | 0, l => l
  | k + 1, l =>
    if l.getD k 0 = 0 then slideN k (swapAdj l k) else l

/-- First loop of `move_left` (also of `move_up`, applied to a column):
`for i in 1..row.len()` running the zero-bubbling `while`. -/
def compactL (p : List Nat × Bool) : List Nat × Bool :=
  (List.range' 1 (p.1.length - 1)).foldl (fun q i => slideL i q.1 q.2) p

/-- Third loop of `move_left` / `move_up`: the same compaction pass without
the `moved` flag. -/
def compactL3 (l : List Nat) : List Nat :=
  (List.range' 1 (l.length - 1)).foldl (fun q i => slideN i q) l

/-- Body of the merge loop of `move_left` / `move_up` at index `i`:
`if row[i] != 0 && row[i] == row[i+1] { row[i] *= 2; row[i+1] = 0; moved = true; }`. -/
def mergeLStep (p : List Nat × Bool) (i : Nat) : List Nat × Bool :=
  if p.1.getD i 0 ≠ 0 ∧ p.1.getD i 0 = p.1.getD (i + 1) 0 then
    ((p.1.set i (2 * p.1.getD i 0)).set (i + 1) 0, true)
  else p

/-- Merge loop of `move_left` / `move_up`: `for i in 0..row.len()-1`. -/
def mergeLPass (p : List Nat × Bool) : List Nat × Bool :=
  (List.range (p.1.length - 1)).foldl mergeLStep p

/-- Per-line processing of `move_left` (and, column-wise, of `move_up`):
compact, merge, compact again. -/
def pipeL (p : List Nat × Bool) : List Nat × Bool :=
  let q := mergeLPass (compactL p)
  (compactL3 q.1, q.2)

/-- `move_left` of `src/main.rs`: every row is compacted, merged and
re-compacted; the function returns the new grid together with the `moved`
flag.  The Rust code threads one `moved` variable through all rows, but the
transformation never reads it, so it is the disjunction of the per-row flags;
the final `if initial_board == *game_board { moved = false; }` is the
equality guard below. -/
def move_left (g : Grid) : Grid × Bool :=
  let g2 := g.map (fun r => (pipeL (r, false)).1)
  (g2, if g2 = g then false else g.any (fun r => (pipeL (r, false)).2))

/-- Inner `while` of the first and third loops of `move_right` / `move_down`:
`while k < row.len() - 1 && row[k+1] == 0 { row.swap(k, k+1); k += 1; }`
(setting `moved` in the first loop).  The position `k` only increases and the
loop stops before `row.len() - 1`, so `row.len()` steps of fuel (first
argument) are never exhausted. -/
def slideRF : Nat → List Nat → Bool → Nat → List Nat × Bool
  | 0, l, m, _ => (l, m)
  | f + 1, l, m, k =>
    if k < l.length - 1 ∧ l.getD (k + 1) 0 = 0 then
      slideRF f (swapAdj l k) true (k + 1)
    else (l, m)

/-- The `while` loop of `slideRF` without the `moved` flag (third loop of
`move_right` / `move_down`). -/
def slideRN : Nat → List Nat → Nat → List Nat
  | 0, l, _ => l
  | f + 1, l, k =>
    if k < l.length - 1 ∧ l.getD (k + 1) 0 = 0 then
      slideRN f (swapAdj l k) (k + 1)
    else l

/-- First loop of `move_right` / `move_down`: `for i in (0..row.len()-1).rev()`
running the zero-bubbling `while` towards the end of the line. -/
def compactR (p : List Nat × Bool) : List Nat × Bool :=
  ((List.range (p.1.length - 1)).reverse).foldl
    (fun q i => slideRF q.1.length q.1 q.2 i) p

/-- Third loop of `move_right` / `move_down`: compaction towards the end
without the `moved` flag. -/
def compactR3 (l : List Nat) : List Nat :=
  ((List.range (l.length - 1)).reverse).foldl (fun q i => slideRN q.length q i) l

/-- Body of the merge loop of `move_right` / `move_down` at index `i`:
`if row[i] != 0 && row[i] == row[i+1] { row[i+1] *= 2; row[i] = 0; moved = true; }`. -/
def mergeRStep (p : List Nat × Bool) (i : Nat) : List Nat × Bool :=
  if p.1.getD i 0 ≠ 0 ∧ p.1.getD i 0 = p.1.getD (i + 1) 0 then
    ((p.1.set (i + 1) (2 * p.1.getD i 0)).set i 0, true)
  else p

/-- Merge loop of `move_right` / `move_down`: `for i in (0..row.len()-1).rev()`. -/
def mergeRPass (p : List Nat × Bool) : List Nat × Bool :=
  ((List.range (p.1.length - 1)).reverse).foldl mergeRStep p

/-- Per-line processing of `move_right` (and, column-wise, of `move_down`). -/
def pipeR (p : List Nat × Bool) : List Nat × Bool :=
  let q := mergeRPass (compactR p)
  (compactR3 q.1, q.2)

/-- `move_right` of `src/main.rs`, with the same final equality guard as
`move_left`. -/
def move_right (g : Grid) : Grid × Bool :=
  let g2 := g.map (fun r => (pipeR (r, false)).1)
  (g2, if g2 = g then false else g.any (fun r => (pipeR (r, false)).2))

/-- Column `j` of the grid, as read by the column loops of `move_up` /
`move_down` (`game_board[row][col]`). -/
def getCol (g : Grid) (j : Nat) : List Nat :=
  g.map (fun r => r.getD j 0)

/-- Writing a column back: cell `j` of row `i` becomes entry `i` of `c`. -/
def setCol (g : Grid) (j : Nat) (c : List Nat) : Grid :=
  List.zipWith (fun r v => r.set j v) g c

/-- `move_up` of `src/main.rs`: `for col in 0..game_board[0].len()` applies to
each column exactly the compact/merge/compact passes that `move_left` applies
to a row (same traversal order, the cell nearer the top keeps the doubled
value).  The per-column loops never read `moved`, only set it, so the flag is
the disjunction of the per-column flags, with the final grid-equality guard. -/
def move_up (g : Grid) : Grid × Bool :=
  let w := (g.getD 0 []).length
  let r := (List.range w).foldl
    (fun (q : Grid × Bool) j =>
      (setCol q.1 j (pipeL (getCol q.1 j, false)).1, q.2 || (pipeL (getCol q.1 j, false)).2))
    (g, false)
  (r.1, if r.1 = g then false else r.2)

/-- `move_down` of `src/main.rs`: the `move_right` passes applied to each
column (the cell nearer the bottom keeps the doubled value). -/
def move_down (g : Grid) : Grid × Bool :=
  let w := (g.getD 0 []).length
  let r := (List.range w).foldl
    (fun (q : Grid × Bool) j =>
      (setCol q.1 j (pipeR (getCol q.1 j, false)).1, q.2 || (pipeR (getCol q.1 j, false)).2))
    (g, false)
  (r.1, if r.1 = g then false else r.2)

/-- `can_make_move` of `src/main.rs`: true if some cell is `0`, or some row
has two adjacent equal cells, or some column has two adjacent equal cells.
The Rust early `return true` statements are the disjuncts of this predicate. -/
def can_make_move (g : Grid) : Bool :=
  (g.any (fun row => (List.range row.length).any (fun i =>
      decide (row.getD i 0 = 0) ||
      (decide (i < row.length - 1) && decide (row.getD i 0 = row.getD (i + 1) 0)))))
  ||
  ((List.range (g.getD 0 []).length).any (fun col =>
      (List.range (g.length - 1)).any (fun r =>
        decide ((g.getD r []).getD col 0 = (g.getD (r + 1) []).getD col 0))))

/-- `calculate_score` of `src/main.rs`: `game_board.iter().flatten().sum()`. -/
def calculate_score (g : Grid) : Nat :=
  g.flatten.sum

/-- The `empty_cells_array` built by `spawn_random_tile`: the coordinates of
all `0` cells, row major. -/
def emptyCells (g : Grid) : List (Nat × Nat) :=
  (List.range g.length).flatMap (fun i =>
    ((List.range ((g.getD i []).length)).filter
        (fun j => decide ((g.getD i []).getD j 0 = 0))).map (fun j => (i, j)))

/-- `spawn_random_tile` of `src/main.rs`.  The two uses of the thread-local
random generator are made explicit parameters: `pick` selects the empty cell
(`iter.choose` returns `None` exactly on an empty list, otherwise an arbitrary
element, modelled by indexing with `pick % cells.length`), and `coin` is the
outcome of `gen_bool(0.9)` (`true` gives tile `2`, `false` gives tile `4`). -/
def spawn_random_tile (g : Grid) (pick : Nat) (coin : Bool) : Grid :=
  let cells := emptyCells g
  if cells = [] then g
  else
    let c := cells.getD (pick % cells.length) (0, 0)
    let v : Nat := if coin then 2 else 4
    g.set c.1 ((g.getD c.1 []).set c.2 v)

/-- A line contains two adjacent equal nonzero cells (a merge is available). -/
def hasAdjPair (l : List Nat) : Bool :=
  (List.range (l.length - 1)).any (fun i =>
    decide (l.getD i 0 ≠ 0) && decide (l.getD i 0 = l.getD (i + 1) 0))

/-- A line is settled towards its start: after the first `0`, only `0`s. -/
def compactedL : List Nat → Bool
  | [] => true
  | x :: xs => if x = 0 then xs.all (fun y => decide (y = 0)) else compactedL xs

/-- A line is settled towards its end: before the first nonzero, only `0`s. -/
def compactedR : List Nat → Bool
  | [] => true
  | x :: xs => if x = 0 then compactedR xs else xs.all (fun y => decide (y ≠ 0))

/-- Number of tiles (nonzero cells) of a line. -/
def nzCount (l : List Nat) : Nat :=
  l.foldr (fun x n => if x = 0 then n else n + 1) 0

/-- Modelled from the spec: single left-to-right merge scan in which a merged
pair is consumed, so each tile participates in at most one merge (the fuel
argument bounds the recursion by the length of the line). -/
def mergeOnceF : Nat → List Nat → List Nat
  | 0, l => l
  | _ + 1, [] => []
  | _ + 1, [a] => [a]
  | f + 1, a :: b :: rest =>
    if a ≠ 0 ∧ a = b then (2 * a) :: 0 :: mergeOnceF f rest
    else a :: mergeOnceF f (b :: rest)

/-- Modelled from the spec: one-merge-per-tile scan over a whole line. -/
def mergeOnce (l : List Nat) : List Nat :=
  mergeOnceF l.length l

/-! Basic length and flag lemmas for the left/up passes. -/

theorem length_swapAdj (l : List Nat) (k : Nat) : (swapAdj l k).length = l.length := by
  simp [swapAdj]

theorem slideL_length (k : Nat) : ∀ l m, (slideL k l m).1.length = l.length := by
  induction k with
  | zero => intro l m; rfl
  | succ k ih =>
    intro l m
    simp only [slideL]
    split
    · rw [ih]; exact length_swapAdj l k
    · rfl

theorem slideL_fst_eq_slideN (k : Nat) : ∀ l m, (slideL k l m).1 = slideN k l := by
  induction k with
  | zero => intro l m; rfl
  | succ k ih =>
    intro l m
    simp only [slideL, slideN]
    split
    · exact ih _ _
    · rfl

theorem slideL_true (k : Nat) : ∀ l, (slideL k l true).2 = true := by
  induction k with
  | zero => intro l; rfl
  | succ k ih =>
    intro l
    simp only [slideL]
    split
    · exact ih _
    · rfl

theorem slideL_false_eq (k : Nat) : ∀ l m, (slideL k l m).2 = false → slideL k l m = (l, m) := by
  induction k with
  | zero => intro l m _; rfl
  | succ k ih =>
    intro l m h
    by_cases hc : l.getD k 0 = 0
    · exfalso
      simp only [slideL, if_pos hc] at h
      rw [slideL_true] at h
      exact absurd h (by simp)
    · simp only [slideL, if_neg hc]

theorem slideL_false_slideN (k : Nat) (l : List Nat) (m : Bool)
    (h : (slideL k l m).2 = false) : slideN k l = l := by
  have h1 := slideL_false_eq k l m h
  have h2 := slideL_fst_eq_slideN k l m
  rw [h1] at h2
  exact h2.symm

theorem foldSlideL_true (js : List Nat) : ∀ l : List Nat,
    ((js.foldl (fun q i => slideL i q.1 q.2) ((l, true) : List Nat × Bool)).2) = true := by
  induction js with
  | nil => intro l; rfl
  | cons j js ih =>
    intro l
    simp only [List.foldl_cons]
    rcases hj : slideL j l true with ⟨l', m'⟩
    have hm : m' = true := by
      have := slideL_true j l
      rw [hj] at this
      exact this
    rw [hm]
    exact ih l'

theorem foldSlideL_false (js : List Nat) : ∀ (l : List Nat) (m : Bool),
    ((js.foldl (fun q i => slideL i q.1 q.2) ((l, m) : List Nat × Bool)).2 = false) →
    js.foldl (fun q i => slideL i q.1 q.2) ((l, m) : List Nat × Bool) = (l, m) ∧
    js.foldl (fun q i => slideN i q) l = l ∧ m = false := by
  induction js with
  | nil =>
    intro l m h
    exact ⟨rfl, rfl, by simpa using h⟩
  | cons j js ih =>
    intro l m h
    simp only [List.foldl_cons] at h ⊢
    rcases hj : slideL j l m with ⟨l', m'⟩
    rw [hj] at h
    cases m' with
    | true =>
      rw [foldSlideL_true js l'] at h
      exact absurd h (by simp)
    | false =>
      have heq := slideL_false_eq j l m (by rw [hj])
      rw [hj] at heq
      injection heq with h1 h2
      subst h1
      subst h2
      have hsN : slideN j l' = l' := slideL_false_slideN j l' false (by rw [hj])
      obtain ⟨g1, g2, _⟩ := ih l' false h
      refine ⟨?_, ?_, rfl⟩
      · simpa [hj] using g1
      · simpa [hsN] using g2

theorem compactL_false (p : List Nat × Bool) (h : (compactL p).2 = false) :
    compactL p = p ∧ compactL3 p.1 = p.1 ∧ p.2 = false := by
  rcases p with ⟨l, m⟩
  obtain ⟨h1, h2, h3⟩ := foldSlideL_false (List.range' 1 (l.length - 1)) l m h
  exact ⟨h1, h2, h3⟩

theorem mergeLStep_true (p : List Nat × Bool) (i : Nat) (h : p.2 = true) :
    (mergeLStep p i).2 = true := by
  simp only [mergeLStep]
  split
  · rfl
  · exact h

theorem mergeLStep_false (p : List Nat × Bool) (i : Nat) (h : (mergeLStep p i).2 = false) :
    mergeLStep p i = p := by
  by_cases hc : p.1.getD i 0 ≠ 0 ∧ p.1.getD i 0 = p.1.getD (i + 1) 0
  · exfalso
    simp only [mergeLStep, if_pos hc] at h
    exact absurd h (by simp)
  · simp only [mergeLStep, if_neg hc]

theorem foldMergeL_false (js : List Nat) : ∀ p : List Nat × Bool,
    ((js.foldl mergeLStep p).2 = false) → js.foldl mergeLStep p = p := by
  induction js with
  | nil => intro p _; rfl
  | cons j js ih =>
    intro p h
    simp only [List.foldl_cons] at h ⊢
    have h1 := ih (mergeLStep p j) h
    rw [h1] at h ⊢
    rw [mergeLStep_false p j h]

theorem mergeLPass_false (p : List Nat × Bool) (h : (mergeLPass p).2 = false) :
    mergeLPass p = p :=
  foldMergeL_false _ p h

theorem pipeL_false (p : List Nat × Bool) (h : (pipeL p).2 = false) :
    (pipeL p).1 = p.1 ∧ p.2 = false := by
  simp only [pipeL] at h ⊢
  have hq : (mergeLPass (compactL p)).2 = false := h
  have hm := mergeLPass_false _ hq
  rw [hm] at h ⊢
  obtain ⟨h1, h2, h3⟩ := compactL_false p h
  rw [h1]
  exact ⟨h2, h3⟩

theorem map_eq_self_of {α : Type} (l : List α) (f : α → α) (h : ∀ x ∈ l, f x = x) :
    l.map f = l := by
  induction l with
  | nil => rfl
  | cons x xs ih =>
    simp only [List.map_cons]
    rw [h x (by simp), ih (fun y hy => h y (by simp [hy]))]

theorem flag_iff_left (g : Grid) : (move_left g).2 = true ↔ (move_left g).1 ≠ g := by
  simp only [move_left]
  by_cases hg : g.map (fun r => (pipeL (r, false)).1) = g
  · simp [hg]
  · simp only [hg, if_neg hg, ne_eq, not_false_iff, iff_true]
    by_contra hany
    have hany' : g.any (fun r => (pipeL (r, false)).2) = false := by
      simpa using hany
    rw [List.any_eq_false] at hany'
    apply hg
    apply map_eq_self_of
    intro r hr
    exact (pipeL_false (r, false) (by simpa using hany' r hr)).1

/-! Mirrored flag lemmas for the right/down passes. -/

theorem slideRF_length (f : Nat) : ∀ l m k, (slideRF f l m k).1.length = l.length := by
  induction f with
  | zero => intro l m k; rfl
  | succ f ih =>
    intro l m k
    by_cases hc : k < l.length - 1 ∧ l.getD (k + 1) 0 = 0
    · simp only [slideRF, if_pos hc]
      rw [ih]; exact length_swapAdj l k
    · simp only [slideRF, if_neg hc]

theorem slideRF_fst_eq_slideRN (f : Nat) : ∀ l m k, (slideRF f l m k).1 = slideRN f l k := by
  induction f with
  | zero => intro l m k; rfl
  | succ f ih =>
    intro l m k
    by_cases hc : k < l.length - 1 ∧ l.getD (k + 1) 0 = 0
    · simp only [slideRF, slideRN, if_pos hc]
      exact ih _ _ _
    · simp only [slideRF, slideRN, if_neg hc]

theorem slideRF_true (f : Nat) : ∀ l k, (slideRF f l true k).2 = true := by
  induction f with
  | zero => intro l k; rfl
  | succ f ih =>
    intro l k
    by_cases hc : k < l.length - 1 ∧ l.getD (k + 1) 0 = 0
    · simp only [slideRF, if_pos hc]; exact ih _ _
    · simp only [slideRF, if_neg hc]

theorem slideRF_false_eq (f : Nat) : ∀ l m k, (slideRF f l m k).2 = false →
    slideRF f l m k = (l, m) := by
  induction f with
  | zero => intro l m k _; rfl
  | succ f ih =>
    intro l m k h
    by_cases hc : k < l.length - 1 ∧ l.getD (k + 1) 0 = 0
    · exfalso
      simp only [slideRF, if_pos hc] at h
      rw [slideRF_true] at h
      exact absurd h (by simp)
    · simp only [slideRF, if_neg hc]

theorem slideRF_false_slideRN (f : Nat) (l : List Nat) (m : Bool) (k : Nat)
    (h : (slideRF f l m k).2 = false) : slideRN f l k = l := by
  have h1 := slideRF_false_eq f l m k h
  have h2 := slideRF_fst_eq_slideRN f l m k
  rw [h1] at h2
  exact h2.symm

theorem foldSlideR_true (js : List Nat) : ∀ l : List Nat,
    ((js.foldl (fun q i => slideRF q.1.length q.1 q.2 i) ((l, true) : List Nat × Bool)).2) = true := by
  induction js with
  | nil => intro l; rfl
  | cons j js ih =>
    intro l
    rcases hj : slideRF l.length l true j with ⟨l', m'⟩
    have hm : m' = true := by
      have := slideRF_true l.length l j
      rw [hj] at this
      exact this
    rw [hm] at hj
    have key : ((js.foldl (fun q i => slideRF q.1.length q.1 q.2 i)
        (slideRF l.length l true j)).2) = true := by
      rw [hj]; exact ih l'
    exact key

theorem foldSlideR_false (js : List Nat) : ∀ (l : List Nat) (m : Bool),
    ((js.foldl (fun q i => slideRF q.1.length q.1 q.2 i) ((l, m) : List Nat × Bool)).2 = false) →
    js.foldl (fun q i => slideRF q.1.length q.1 q.2 i) ((l, m) : List Nat × Bool) = (l, m) ∧
    js.foldl (fun q i => slideRN q.length q i) l = l ∧ m = false := by
  induction js with
  | nil =>
    intro l m h
    exact ⟨rfl, rfl, by simpa using h⟩
  | cons j js ih =>
    intro l m h
    simp only [List.foldl_cons] at h ⊢
    rcases hj : slideRF l.length l m j with ⟨l', m'⟩
    rw [hj] at h
    cases m' with
    | true =>
      rw [foldSlideR_true js l'] at h
      exact absurd h (by simp)
    | false =>
      have heq := slideRF_false_eq l.length l m j (by rw [hj])
      rw [hj] at heq
      injection heq with h1 h2
      subst h1
      subst h2
      have hsN : slideRN l'.length l' j = l' :=
        slideRF_false_slideRN l'.length l' false j (by rw [hj])
      obtain ⟨g1, g2, _⟩ := ih l' false h
      refine ⟨?_, ?_, rfl⟩
      · simpa [hj] using g1
      · simpa [hsN] using g2

theorem compactR_false (p : List Nat × Bool) (h : (compactR p).2 = false) :
    compactR p = p ∧ compactR3 p.1 = p.1 ∧ p.2 = false := by
  rcases p with ⟨l, m⟩
  obtain ⟨h1, h2, h3⟩ := foldSlideR_false ((List.range (l.length - 1)).reverse) l m h
  exact ⟨h1, h2, h3⟩

theorem mergeRStep_false (p : List Nat × Bool) (i : Nat) (h : (mergeRStep p i).2 = false) :
    mergeRStep p i = p := by
  by_cases hc : p.1.getD i 0 ≠ 0 ∧ p.1.getD i 0 = p.1.getD (i + 1) 0
  · exfalso
    simp only [mergeRStep, if_pos hc] at h
    exact absurd h (by simp)
  · simp only [mergeRStep, if_neg hc]

theorem foldMergeR_false (js : List Nat) : ∀ p : List Nat × Bool,
    ((js.foldl mergeRStep p).2 = false) → js.foldl mergeRStep p = p := by
  induction js with
  | nil => intro p _; rfl
  | cons j js ih =>
    intro p h
    simp only [List.foldl_cons] at h ⊢
    have h1 := ih (mergeRStep p j) h
    rw [h1] at h ⊢
    rw [mergeRStep_false p j h]

theorem mergeRPass_false (p : List Nat × Bool) (h : (mergeRPass p).2 = false) :
    mergeRPass p = p :=
  foldMergeR_false _ p h

theorem pipeR_false (p : List Nat × Bool) (h : (pipeR p).2 = false) :
    (pipeR p).1 = p.1 ∧ p.2 = false := by
  simp only [pipeR] at h ⊢
  have hm := mergeRPass_false _ h
  rw [hm] at h ⊢
  obtain ⟨h1, h2, h3⟩ := compactR_false p h
  rw [h1]
  exact ⟨h2, h3⟩

theorem flag_iff_right (g : Grid) : (move_right g).2 = true ↔ (move_right g).1 ≠ g := by
  simp only [move_right]
  by_cases hg : g.map (fun r => (pipeR (r, false)).1) = g
  · simp [hg]
  · simp only [hg, if_neg hg, ne_eq, not_false_iff, iff_true]
    by_contra hany
    have hany' : g.any (fun r => (pipeR (r, false)).2) = false := by
      simpa using hany
    rw [List.any_eq_false] at hany'
    apply hg
    apply map_eq_self_of
    intro r hr
    exact (pipeR_false (r, false) (by simpa using hany' r hr)).1

/-! Column access lemmas and the flag characterisation for the vertical moves. -/

theorem set_getD_self (r : List Nat) : ∀ j : Nat, r.set j (r.getD j 0) = r := by
  induction r with
  | nil => intro j; rfl
  | cons x xs ih =>
    intro j
    cases j with
    | zero => simp [List.getD]
    | succ j => simp only [List.getD_cons_succ, List.set_cons_succ]; rw [ih j]

theorem setCol_getCol_self (g : Grid) (j : Nat) : setCol g j (getCol g j) = g := by
  induction g with
  | nil => rfl
  | cons r g ih =>
    simp only [setCol, getCol, List.map_cons, List.zipWith_cons_cons]
    rw [set_getD_self r j]
    simp only [List.cons.injEq, true_and]
    exact ih

theorem foldUp_true (js : List Nat) : ∀ g : Grid,
    ((js.foldl (fun (q : Grid × Bool) j =>
      (setCol q.1 j (pipeL (getCol q.1 j, false)).1, q.2 || (pipeL (getCol q.1 j, false)).2)) ((g, true) : Grid × Bool)).2) = true := by
  induction js with
  | nil => intro g; rfl
  | cons j js ih =>
    intro g
    simp only [List.foldl_cons, Bool.true_or]
    exact ih _

theorem foldUp_false (js : List Nat) : ∀ g : Grid,
    ((js.foldl (fun (q : Grid × Bool) j =>
      (setCol q.1 j (pipeL (getCol q.1 j, false)).1, q.2 || (pipeL (getCol q.1 j, false)).2)) ((g, false) : Grid × Bool)).2 = false) →
    js.foldl (fun (q : Grid × Bool) j =>
      (setCol q.1 j (pipeL (getCol q.1 j, false)).1, q.2 || (pipeL (getCol q.1 j, false)).2)) ((g, false) : Grid × Bool) = (g, false) := by
  induction js with
  | nil => intro g _; rfl
  | cons j js ih =>
    intro g h
    simp only [List.foldl_cons, Bool.false_or] at h ⊢
    rcases hp : (pipeL (getCol g j, false)).2 with _ | _
    · have hfst := (pipeL_false (getCol g j, false) hp).1
      rw [hfst, setCol_getCol_self] at h ⊢
      rw [hp] at h
      exact ih g h
    · rw [hp] at h
      rw [foldUp_true js _] at h
      exact absurd h (by simp)

theorem flag_iff_up (g : Grid) : (move_up g).2 = true ↔ (move_up g).1 ≠ g := by
  simp only [move_up]
  rcases hF : (List.range (g.getD 0 []).length).foldl (fun (q : Grid × Bool) j =>
      (setCol q.1 j (pipeL (getCol q.1 j, false)).1, q.2 || (pipeL (getCol q.1 j, false)).2)) ((g, false) : Grid × Bool) with ⟨g', m'⟩
  by_cases hg : g' = g
  · simp [hg]
  · simp only [hg, if_neg hg, ne_eq, not_false_iff, iff_true]
    cases m' with
    | true => rfl
    | false =>
      exfalso
      have := foldUp_false (List.range (g.getD 0 []).length) g (by rw [hF])
      rw [hF] at this
      exact hg (congrArg Prod.fst this)

theorem foldDown_true (js : List Nat) : ∀ g : Grid,
    ((js.foldl (fun (q : Grid × Bool) j =>
      (setCol q.1 j (pipeR (getCol q.1 j, false)).1, q.2 || (pipeR (getCol q.1 j, false)).2)) ((g, true) : Grid × Bool)).2) = true := by
  induction js with
  | nil => intro g; rfl
  | cons j js ih =>
    intro g
    simp only [List.foldl_cons, Bool.true_or]
    exact ih _

theorem foldDown_false (js : List Nat) : ∀ g : Grid,
    ((js.foldl (fun (q : Grid × Bool) j =>
      (setCol q.1 j (pipeR (getCol q.1 j, false)).1, q.2 || (pipeR (getCol q.1 j, false)).2)) ((g, false) : Grid × Bool)).2 = false) →
    js.foldl (fun (q : Grid × Bool) j =>
      (setCol q.1 j (pipeR (getCol q.1 j, false)).1, q.2 || (pipeR (getCol q.1 j, false)).2)) ((g, false) : Grid × Bool) = (g, false) := by
  induction js with
  | nil => intro g _; rfl
  | cons j js ih =>
    intro g h
    simp only [List.foldl_cons, Bool.false_or] at h ⊢
    rcases hp : (pipeR (getCol g j, false)).2 with _ | _
    · have hfst := (pipeR_false (getCol g j, false) hp).1
      rw [hfst, setCol_getCol_self] at h ⊢
      rw [hp] at h
      exact ih g h
    · rw [hp] at h
      rw [foldDown_true js _] at h
      exact absurd h (by simp)

theorem flag_iff_down (g : Grid) : (move_down g).2 = true ↔ (move_down g).1 ≠ g := by
  simp only [move_down]
  rcases hF : (List.range (g.getD 0 []).length).foldl (fun (q : Grid × Bool) j =>
      (setCol q.1 j (pipeR (getCol q.1 j, false)).1, q.2 || (pipeR (getCol q.1 j, false)).2)) ((g, false) : Grid × Bool) with ⟨g', m'⟩
  by_cases hg : g' = g
  · simp [hg]
  · simp only [hg, if_neg hg, ne_eq, not_false_iff, iff_true]
    cases m' with
    | true => rfl
    | false =>
      exfalso
      have := foldDown_false (List.range (g.getD 0 []).length) g (by rw [hF])
      rw [hF] at this
      exact hg (congrArg Prod.fst this)

/-! Cell access helper lemmas. -/

theorem getD_zero_of_le (l : List Nat) (i : Nat) (h : l.length ≤ i) : l.getD i 0 = 0 := by
  simp [List.getD, List.getElem?_eq_none h]

theorem lt_of_getD_ne_zero (l : List Nat) (i : Nat) (h : l.getD i 0 ≠ 0) : i < l.length := by
  by_contra hc
  exact h (getD_zero_of_le l i (by omega))

theorem getD_set_ne (l : List Nat) (i j v : Nat) (h : i ≠ j) :
    (l.set i v).getD j 0 = l.getD j 0 := by
  simp [List.getD, List.getElem?_set_ne h]

theorem getD_set_self (l : List Nat) (i v : Nat) (h : i < l.length) :
    (l.set i v).getD i 0 = v := by
  simp [List.getD, List.getElem?_set_self, h]

/-! Length preservation along the passes. -/

theorem foldSlideL_fst (js : List Nat) : ∀ (l : List Nat) (m : Bool),
    (js.foldl (fun q i => slideL i q.1 q.2) ((l, m) : List Nat × Bool)).1 =
    js.foldl (fun q i => slideN i q) l := by
  induction js with
  | nil => intro l m; rfl
  | cons j js ih =>
    intro l m
    simp only [List.foldl_cons]
    rcases hj : slideL j l m with ⟨l', m'⟩
    have hfst : l' = slideN j l := by
      have := slideL_fst_eq_slideN j l m
      rw [hj] at this
      exact this
    rw [ih l' m', hfst]

theorem slideN_length (k : Nat) : ∀ l, (slideN k l).length = l.length := by
  induction k with
  | zero => intro l; rfl
  | succ k ih =>
    intro l
    by_cases hc : l.getD k 0 = 0
    · simp only [slideN, if_pos hc]
      rw [ih]; exact length_swapAdj l k
    · simp only [slideN, if_neg hc]

theorem foldSlideN_length (js : List Nat) : ∀ l : List Nat,
    (js.foldl (fun q i => slideN i q) l).length = l.length := by
  induction js with
  | nil => intro l; rfl
  | cons j js ih =>
    intro l
    simp only [List.foldl_cons]
    rw [ih, slideN_length]

theorem compactL_length (p : List Nat × Bool) : (compactL p).1.length = p.1.length := by
  rcases p with ⟨l, m⟩
  simp only [compactL]
  rw [foldSlideL_fst, foldSlideN_length]

theorem compactL3_length (l : List Nat) : (compactL3 l).length = l.length := by
  simp only [compactL3]
  rw [foldSlideN_length]

theorem mergeLStep_length (p : List Nat × Bool) (i : Nat) :
    (mergeLStep p i).1.length = p.1.length := by
  by_cases hc : p.1.getD i 0 ≠ 0 ∧ p.1.getD i 0 = p.1.getD (i + 1) 0
  · simp only [mergeLStep, if_pos hc]
    simp [List.length_set]
  · simp only [mergeLStep, if_neg hc]

theorem foldMergeL_length (js : List Nat) : ∀ p : List Nat × Bool,
    (js.foldl mergeLStep p).1.length = p.1.length := by
  induction js with
  | nil => intro p; rfl
  | cons j js ih =>
    intro p
    simp only [List.foldl_cons]
    rw [ih, mergeLStep_length]

theorem mergeLPass_length (p : List Nat × Bool) : (mergeLPass p).1.length = p.1.length := by
  simp only [mergeLPass]
  rw [foldMergeL_length]

theorem pipeL_length (p : List Nat × Bool) : (pipeL p).1.length = p.1.length := by
  simp only [pipeL]
  rw [compactL3_length, mergeLPass_length, compactL_length]

theorem slideRN_length (f : Nat) : ∀ l k, (slideRN f l k).length = l.length := by
  induction f with
  | zero => intro l k; rfl
  | succ f ih =>
    intro l k
    by_cases hc : k < l.length - 1 ∧ l.getD (k + 1) 0 = 0
    · simp only [slideRN, if_pos hc]
      rw [ih]; exact length_swapAdj l k
    · simp only [slideRN, if_neg hc]

theorem foldSlideR_fst (js : List Nat) : ∀ (l : List Nat) (m : Bool),
    (js.foldl (fun q i => slideRF q.1.length q.1 q.2 i) ((l, m) : List Nat × Bool)).1 =
    js.foldl (fun q i => slideRN q.length q i) l := by
  induction js with
  | nil => intro l m; rfl
  | cons j js ih =>
    intro l m
    simp only [List.foldl_cons]
    rcases hj : slideRF l.length l m j with ⟨l', m'⟩
    have hfst : l' = slideRN l.length l j := by
      have := slideRF_fst_eq_slideRN l.length l m j
      rw [hj] at this
      exact this
    rw [ih l' m', hfst]

theorem foldSlideRN_length (js : List Nat) : ∀ l : List Nat,
    (js.foldl (fun q i => slideRN q.length q i) l).length = l.length := by
  induction js with
  | nil => intro l; rfl
  | cons j js ih =>
    intro l
    simp only [List.foldl_cons]
    rw [ih, slideRN_length]

theorem compactR_length (p : List Nat × Bool) : (compactR p).1.length = p.1.length := by
  rcases p with ⟨l, m⟩
  simp only [compactR]
  rw [foldSlideR_fst, foldSlideRN_length]

theorem compactR3_length (l : List Nat) : (compactR3 l).length = l.length := by
  simp only [compactR3]
  rw [foldSlideRN_length]

theorem mergeRStep_length (p : List Nat × Bool) (i : Nat) :
    (mergeRStep p i).1.length = p.1.length := by
  by_cases hc : p.1.getD i 0 ≠ 0 ∧ p.1.getD i 0 = p.1.getD (i + 1) 0
  · simp only [mergeRStep, if_pos hc]
    simp [List.length_set]
  · simp only [mergeRStep, if_neg hc]

theorem foldMergeR_length (js : List Nat) : ∀ p : List Nat × Bool,
    (js.foldl mergeRStep p).1.length = p.1.length := by
  induction js with
  | nil => intro p; rfl
  | cons j js ih =>
    intro p
    simp only [List.foldl_cons]
    rw [ih, mergeRStep_length]

theorem mergeRPass_length (p : List Nat × Bool) : (mergeRPass p).1.length = p.1.length := by
  simp only [mergeRPass]
  rw [foldMergeR_length]

theorem pipeR_length (p : List Nat × Bool) : (pipeR p).1.length = p.1.length := by
  simp only [pipeR]
  rw [compactR3_length, mergeRPass_length, compactR_length]

/-! Sum preservation of the passes (content of a merge: `v + v` becomes `2v + 0`). -/

theorem sum_set (l : List Nat) : ∀ (i v : Nat), i < l.length →
    (l.set i v).sum + l.getD i 0 = l.sum + v := by
  induction l with
  | nil => intro i v h; simp at h
  | cons x xs ih =>
    intro i v h
    cases i with
    | zero => simp [List.getD]; omega
    | succ i =>
      simp only [List.set_cons_succ, List.sum_cons, List.getD_cons_succ]
      have := ih i v (by simpa using h)
      omega

theorem sum_swapAdj (l : List Nat) (k : Nat) (h : k + 1 < l.length) :
    (swapAdj l k).sum = l.sum := by
  simp only [swapAdj]
  have h1 := sum_set l k (l.getD (k + 1) 0) (by omega)
  have h2 := sum_set (l.set k (l.getD (k + 1) 0)) (k + 1) (l.getD k 0)
    (by rw [List.length_set]; exact h)
  rw [getD_set_ne l k (k + 1) (l.getD (k + 1) 0) (by omega)] at h2
  omega

theorem slideL_sum (k : Nat) : ∀ l m, k < l.length → (slideL k l m).1.sum = l.sum := by
  induction k with
  | zero => intro l m _; rfl
  | succ k ih =>
    intro l m h
    by_cases hc : l.getD k 0 = 0
    · simp only [slideL, if_pos hc]
      rw [ih (swapAdj l k) true (by rw [length_swapAdj]; omega)]
      exact sum_swapAdj l k h
    · simp only [slideL, if_neg hc]

theorem slideL_len_bound (k : Nat) : ∀ l m, (slideL k l m).1.length = l.length := by
  intro l m
  exact slideL_length k l m

theorem foldSlideL_sum (js : List Nat) : ∀ (l : List Nat) (m : Bool),
    (∀ i ∈ js, i < l.length) →
    (js.foldl (fun q i => slideL i q.1 q.2) ((l, m) : List Nat × Bool)).1.sum = l.sum := by
  induction js with
  | nil => intro l m _; rfl
  | cons j js ih =>
    intro l m hb
    simp only [List.foldl_cons]
    rcases hj : slideL j l m with ⟨l', m'⟩
    have hlen : l'.length = l.length := by
      have := slideL_length j l m
      rw [hj] at this
      exact this
    have hsum : l'.sum = l.sum := by
      have := slideL_sum j l m (hb j (by simp))
      rw [hj] at this
      exact this
    rw [ih l' m' (fun i hi => by rw [hlen]; exact hb i (by simp [hi]))]
    exact hsum

theorem compactL_sum (p : List Nat × Bool) : (compactL p).1.sum = p.1.sum := by
  rcases p with ⟨l, m⟩
  simp only [compactL]
  apply foldSlideL_sum
  intro i hi
  rw [List.mem_range'_1] at hi
  omega

theorem compactL3_sum (l : List Nat) : (compactL3 l).sum = l.sum := by
  have h1 : compactL3 l = (compactL (l, false)).1 := by
    simp only [compactL]
    rw [foldSlideL_fst]
    rfl
  rw [h1, compactL_sum]

theorem mergeLStep_sum (p : List Nat × Bool) (i : Nat) :
    (mergeLStep p i).1.sum = p.1.sum := by
  by_cases hc : p.1.getD i 0 ≠ 0 ∧ p.1.getD i 0 = p.1.getD (i + 1) 0
  · simp only [mergeLStep, if_pos hc]
    have hi : i < p.1.length := lt_of_getD_ne_zero _ _ hc.1
    have hi1 : i + 1 < p.1.length := lt_of_getD_ne_zero _ _ (by rw [← hc.2]; exact hc.1)
    have h1 := sum_set p.1 i (2 * p.1.getD i 0) hi
    have h2 := sum_set (p.1.set i (2 * p.1.getD i 0)) (i + 1) 0
      (by rw [List.length_set]; exact hi1)
    rw [getD_set_ne p.1 i (i + 1) (2 * p.1.getD i 0) (by omega)] at h2
    have hv := hc.2
    omega
  · simp only [mergeLStep, if_neg hc]

theorem foldMergeL_sum (js : List Nat) : ∀ p : List Nat × Bool,
    (js.foldl mergeLStep p).1.sum = p.1.sum := by
  induction js with
  | nil => intro p; rfl
  | cons j js ih =>
    intro p
    simp only [List.foldl_cons]
    rw [ih, mergeLStep_sum]

theorem mergeLPass_sum (p : List Nat × Bool) : (mergeLPass p).1.sum = p.1.sum := by
  simp only [mergeLPass]
  rw [foldMergeL_sum]

theorem pipeL_sum (p : List Nat × Bool) : (pipeL p).1.sum = p.1.sum := by
  simp only [pipeL]
  rw [compactL3_sum, mergeLPass_sum, compactL_sum]

theorem slideRF_sum (f : Nat) : ∀ l m k, (slideRF f l m k).1.sum = l.sum := by
  induction f with
  | zero => intro l m k; rfl
  | succ f ih =>
    intro l m k
    by_cases hc : k < l.length - 1 ∧ l.getD (k + 1) 0 = 0
    · simp only [slideRF, if_pos hc]
      rw [ih]
      exact sum_swapAdj l k (by omega)
    · simp only [slideRF, if_neg hc]

theorem foldSlideR_sum (js : List Nat) : ∀ (l : List Nat) (m : Bool),
    (js.foldl (fun q i => slideRF q.1.length q.1 q.2 i) ((l, m) : List Nat × Bool)).1.sum = l.sum := by
  induction js with
  | nil => intro l m; rfl
  | cons j js ih =>
    intro l m
    simp only [List.foldl_cons]
    rcases hj : slideRF l.length l m j with ⟨l', m'⟩
    have hsum : l'.sum = l.sum := by
      have := slideRF_sum l.length l m j
      rw [hj] at this
      exact this
    rw [ih l' m']
    exact hsum

theorem compactR_sum (p : List Nat × Bool) : (compactR p).1.sum = p.1.sum := by
  rcases p with ⟨l, m⟩
  exact foldSlideR_sum _ l m

theorem compactR3_sum (l : List Nat) : (compactR3 l).sum = l.sum := by
  have h1 : compactR3 l = (compactR (l, false)).1 := by
    simp only [compactR]
    rw [foldSlideR_fst]
    rfl
  rw [h1, compactR_sum]

theorem mergeRStep_sum (p : List Nat × Bool) (i : Nat) :
    (mergeRStep p i).1.sum = p.1.sum := by
  by_cases hc : p.1.getD i 0 ≠ 0 ∧ p.1.getD i 0 = p.1.getD (i + 1) 0
  · simp only [mergeRStep, if_pos hc]
    have hi : i < p.1.length := lt_of_getD_ne_zero _ _ hc.1
    have hi1 : i + 1 < p.1.length := lt_of_getD_ne_zero _ _ (by rw [← hc.2]; exact hc.1)
    have h1 := sum_set p.1 (i + 1) (2 * p.1.getD i 0) hi1
    have h2 := sum_set (p.1.set (i + 1) (2 * p.1.getD i 0)) i 0
      (by rw [List.length_set]; exact hi)
    rw [getD_set_ne p.1 (i + 1) i (2 * p.1.getD i 0) (by omega)] at h2
    have hv := hc.2
    omega
  · simp only [mergeRStep, if_neg hc]

theorem foldMergeR_sum (js : List Nat) : ∀ p : List Nat × Bool,
    (js.foldl mergeRStep p).1.sum = p.1.sum := by
  induction js with
  | nil => intro p; rfl
  | cons j js ih =>
    intro p
    simp only [List.foldl_cons]
    rw [ih, mergeRStep_sum]

theorem mergeRPass_sum (p : List Nat × Bool) : (mergeRPass p).1.sum = p.1.sum := by
  simp only [mergeRPass]
  rw [foldMergeR_sum]

theorem pipeR_sum (p : List Nat × Bool) : (pipeR p).1.sum = p.1.sum := by
  simp only [pipeR]
  rw [compactR3_sum, mergeRPass_sum, compactR_sum]

/-! Grid-level sum preservation. -/

theorem flatten_map_sum (g : Grid) (f : List Nat → List Nat)
    (hf : ∀ r, (f r).sum = r.sum) : (g.map f).flatten.sum = g.flatten.sum := by
  induction g with
  | nil => rfl
  | cons r gs ih =>
    simp only [List.map_cons, List.flatten_cons, List.sum_append]
    rw [hf r, ih]

theorem mem_setCol (g : Grid) (j : Nat) (r' : List Nat) :
    ∀ c : List Nat, r' ∈ setCol g j c → ∃ r ∈ g, ∃ v, r' = r.set j v := by
  induction g with
  | nil => intro c h; simp [setCol] at h
  | cons r gs ih =>
    intro c h
    cases c with
    | nil => simp [setCol] at h
    | cons v cs =>
      simp only [setCol, List.zipWith_cons_cons, List.mem_cons] at h
      rcases h with h | h
      · exact ⟨r, by simp, v, h⟩
      · obtain ⟨r0, hr0, v0, hv0⟩ := ih cs h
        exact ⟨r0, by simp [hr0], v0, hv0⟩

theorem getCol_length (g : Grid) (j : Nat) : (getCol g j).length = g.length := by
  simp [getCol]

theorem sum_flatten_setCol (j : Nat) : ∀ (g : Grid) (c : List Nat),
    c.length = g.length → (∀ r ∈ g, j < r.length) →
    (setCol g j c).flatten.sum + (getCol g j).sum = g.flatten.sum + c.sum := by
  intro g
  induction g with
  | nil =>
    intro c hc _
    rw [List.length_nil, List.length_eq_zero] at hc
    subst hc
    rfl
  | cons r gs ih =>
    intro c hc hb
    cases c with
    | nil => simp at hc
    | cons v cs =>
      simp only [setCol, List.zipWith_cons_cons, List.flatten_cons, List.sum_append,
        getCol, List.map_cons, List.sum_cons]
      have h1 := sum_set r j v (hb r (by simp))
      have h2 := ih cs (by simpa using hc) (fun r0 h0 => hb r0 (by simp [h0]))
      simp only [setCol, getCol] at h2
      omega

theorem foldUp_sum (w : Nat) (js : List Nat) : ∀ (g : Grid) (m : Bool),
    (∀ r ∈ g, r.length = w) → (∀ j ∈ js, j < w) →
    ((js.foldl (fun (q : Grid × Bool) j =>
      (setCol q.1 j (pipeL (getCol q.1 j, false)).1, q.2 || (pipeL (getCol q.1 j, false)).2))
      ((g, m) : Grid × Bool)).1.flatten.sum = g.flatten.sum ∧
     ∀ r ∈ (js.foldl (fun (q : Grid × Bool) j =>
      (setCol q.1 j (pipeL (getCol q.1 j, false)).1, q.2 || (pipeL (getCol q.1 j, false)).2))
      ((g, m) : Grid × Bool)).1, r.length = w) := by
  induction js with
  | nil => intro g m hrect _; exact ⟨rfl, hrect⟩
  | cons j js ih =>
    intro g m hrect hb
    simp only [List.foldl_cons]
    have hcl : (pipeL (getCol g j, false)).1.length = g.length := by
      rw [pipeL_length]; exact getCol_length g j
    have hjw : j < w := hb j (by simp)
    have hrect' : ∀ r ∈ setCol g j (pipeL (getCol g j, false)).1, r.length = w := by
      intro r' hr'
      obtain ⟨r, hr, v, hv⟩ := mem_setCol g j r' _ hr'
      rw [hv, List.length_set]
      exact hrect r hr
    have hsum' : (setCol g j (pipeL (getCol g j, false)).1).flatten.sum = g.flatten.sum := by
      have h1 := sum_flatten_setCol j g (pipeL (getCol g j, false)).1 hcl
        (fun r hr => by rw [hrect r hr]; exact hjw)
      have h2 : (pipeL (getCol g j, false)).1.sum = (getCol g j).sum := pipeL_sum _
      omega
    obtain ⟨ih1, ih2⟩ := ih (setCol g j (pipeL (getCol g j, false)).1)
      (m || (pipeL (getCol g j, false)).2) hrect' (fun i hi => hb i (by simp [hi]))
    refine ⟨?_, ih2⟩
    rw [ih1, hsum']

theorem foldDown_sum (w : Nat) (js : List Nat) : ∀ (g : Grid) (m : Bool),
    (∀ r ∈ g, r.length = w) → (∀ j ∈ js, j < w) →
    ((js.foldl (fun (q : Grid × Bool) j =>
      (setCol q.1 j (pipeR (getCol q.1 j, false)).1, q.2 || (pipeR (getCol q.1 j, false)).2))
      ((g, m) : Grid × Bool)).1.flatten.sum = g.flatten.sum ∧
     ∀ r ∈ (js.foldl (fun (q : Grid × Bool) j =>
      (setCol q.1 j (pipeR (getCol q.1 j, false)).1, q.2 || (pipeR (getCol q.1 j, false)).2))
      ((g, m) : Grid × Bool)).1, r.length = w) := by
  induction js with
  | nil => intro g m hrect _; exact ⟨rfl, hrect⟩
  | cons j js ih =>
    intro g m hrect hb
    simp only [List.foldl_cons]
    have hcl : (pipeR (getCol g j, false)).1.length = g.length := by
      rw [pipeR_length]; exact getCol_length g j
    have hjw : j < w := hb j (by simp)
    have hrect' : ∀ r ∈ setCol g j (pipeR (getCol g j, false)).1, r.length = w := by
      intro r' hr'
      obtain ⟨r, hr, v, hv⟩ := mem_setCol g j r' _ hr'
      rw [hv, List.length_set]
      exact hrect r hr
    have hsum' : (setCol g j (pipeR (getCol g j, false)).1).flatten.sum = g.flatten.sum := by
      have h1 := sum_flatten_setCol j g (pipeR (getCol g j, false)).1 hcl
        (fun r hr => by rw [hrect r hr]; exact hjw)
      have h2 : (pipeR (getCol g j, false)).1.sum = (getCol g j).sum := pipeR_sum _
      omega
    obtain ⟨ih1, ih2⟩ := ih (setCol g j (pipeR (getCol g j, false)).1)
      (m || (pipeR (getCol g j, false)).2) hrect' (fun i hi => hb i (by simp [hi]))
    refine ⟨?_, ih2⟩
    rw [ih1, hsum']

theorem move_left_sum (g : Grid) : (move_left g).1.flatten.sum = g.flatten.sum := by
  simp only [move_left]
  exact flatten_map_sum g _ (fun r => pipeL_sum (r, false))

theorem move_right_sum (g : Grid) : (move_right g).1.flatten.sum = g.flatten.sum := by
  simp only [move_right]
  exact flatten_map_sum g _ (fun r => pipeR_sum (r, false))

theorem move_up_sum (g : Grid) (w : Nat) (hw : (g.getD 0 []).length = w)
    (hrect : ∀ r ∈ g, r.length = w) : (move_up g).1.flatten.sum = g.flatten.sum := by
  simp only [move_up, hw]
  exact (foldUp_sum w (List.range w) g false hrect (fun j hj => by
    rw [List.mem_range] at hj; exact hj)).1

theorem move_down_sum (g : Grid) (w : Nat) (hw : (g.getD 0 []).length = w)
    (hrect : ∀ r ∈ g, r.length = w) : (move_down g).1.flatten.sum = g.flatten.sum := by
  simp only [move_down, hw]
  exact (foldDown_sum w (List.range w) g false hrect (fun j hj => by
    rw [List.mem_range] at hj; exact hj)).1

/-- C1: for every grid (so in particular every 4x4 grid) and each of the four
directional moves, the returned boolean is true iff the grid after the move
differs from the grid at entry; in particular it is false whenever the final
grid equals the initial one, even when intermediate steps performed swaps. -/
theorem claim_C1 (g : Grid) :
    ((move_left g).2 = true ↔ (move_left g).1 ≠ g) ∧
    ((move_right g).2 = true ↔ (move_right g).1 ≠ g) ∧
    ((move_up g).2 = true ↔ (move_up g).1 ≠ g) ∧
    ((move_down g).2 = true ↔ (move_down g).1 ≠ g) :=
  ⟨flag_iff_left g, flag_iff_right g, flag_iff_up g, flag_iff_down g⟩

/-- C6: for every 4x4 grid and each of the four directions, the sum of all
cell values after the move equals the sum before it. -/
theorem claim_C6 (g : Grid) (h4 : g.length = 4) (hr : ∀ r ∈ g, r.length = 4) :
    (move_left g).1.flatten.sum = g.flatten.sum ∧
    (move_right g).1.flatten.sum = g.flatten.sum ∧
    (move_up g).1.flatten.sum = g.flatten.sum ∧
    (move_down g).1.flatten.sum = g.flatten.sum := by
  have hw : (g.getD 0 []).length = 4 := by
    cases g with
    | nil => simp at h4
    | cons r gs => simpa using hr r (by simp)
  exact ⟨move_left_sum g, move_right_sum g, move_up_sum g 4 hw hr,
    move_down_sum g 4 hw hr⟩

/-- C6 witness: the 4x4 hypotheses and the conclusion hold at a concrete grid. -/
theorem claim_C6_witness :
    (([[2,2,4,0],[0,0,0,0],[0,8,8,0],[2,0,0,2]] : Grid).length = 4 ∧
     (∀ r ∈ ([[2,2,4,0],[0,0,0,0],[0,8,8,0],[2,0,0,2]] : Grid), r.length = 4)) ∧
    ((move_left [[2,2,4,0],[0,0,0,0],[0,8,8,0],[2,0,0,2]]).1.flatten.sum =
      ([[2,2,4,0],[0,0,0,0],[0,8,8,0],[2,0,0,2]] : Grid).flatten.sum ∧
     (move_right [[2,2,4,0],[0,0,0,0],[0,8,8,0],[2,0,0,2]]).1.flatten.sum =
      ([[2,2,4,0],[0,0,0,0],[0,8,8,0],[2,0,0,2]] : Grid).flatten.sum ∧
     (move_up [[2,2,4,0],[0,0,0,0],[0,8,8,0],[2,0,0,2]]).1.flatten.sum =
      ([[2,2,4,0],[0,0,0,0],[0,8,8,0],[2,0,0,2]] : Grid).flatten.sum ∧
     (move_down [[2,2,4,0],[0,0,0,0],[0,8,8,0],[2,0,0,2]]).1.flatten.sum =
      ([[2,2,4,0],[0,0,0,0],[0,8,8,0],[2,0,0,2]] : Grid).flatten.sum) :=
  ⟨⟨by decide, by decide⟩, claim_C6 _ (by decide) (by decide)⟩

/-- C7: `calculate_score` is the literal sum of all sixteen cells of a 4x4
grid, and on the sample grid it returns 4. -/
theorem claim_C7 :
    (∀ a b c d e f g h i j k l m n o p : Nat,
      calculate_score [[a,b,c,d],[e,f,g,h],[i,j,k,l],[m,n,o,p]] =
        a+b+c+d+e+f+g+h+i+j+k+l+m+n+o+p) ∧
    calculate_score [[2,0,2,0],[0,0,0,0],[0,0,0,0],[0,0,0,0]] = 4 := by
  constructor
  · intro a b c d e f g h i j k l m n o p
    simp [calculate_score]
    omega
  · decide

/-! Spawn lemmas. -/

theorem mem_emptyCells (g : Grid) (i j : Nat) :
    (i, j) ∈ emptyCells g ↔
    i < g.length ∧ j < (g.getD i []).length ∧ (g.getD i []).getD j 0 = 0 := by
  simp only [emptyCells, List.mem_flatMap, List.mem_map, List.mem_filter, List.mem_range,
    decide_eq_true_eq, Prod.mk.injEq]
  constructor
  · rintro ⟨a, ha, b, ⟨⟨hb1, hb2⟩, rfl, rfl⟩⟩
    exact ⟨ha, hb1, hb2⟩
  · rintro ⟨h1, h2, h3⟩
    exact ⟨i, h1, j, ⟨⟨h2, h3⟩, rfl, rfl⟩⟩

theorem getDg_set_self (g : Grid) (i : Nat) (r : List Nat) (h : i < g.length) :
    (g.set i r).getD i [] = r := by
  simp [List.getD, List.getElem?_set_self, h]

theorem getDg_set_ne (g : Grid) (i i' : Nat) (r : List Nat) (h : i ≠ i') :
    (g.set i r).getD i' [] = g.getD i' [] := by
  simp [List.getD, List.getElem?_set_ne h]

/-- C8: on a grid whose only empty cell is `(i, j)`, `spawn_random_tile` sets
exactly that cell to 2 or 4 (for every outcome of the randomness source) and
changes no other cell. -/
theorem claim_C8 (g : Grid) (pick : Nat) (coin : Bool) (i j : Nat)
    (h1 : emptyCells g = [(i, j)]) :
    (((spawn_random_tile g pick coin).getD i []).getD j 0 = 2 ∨
     ((spawn_random_tile g pick coin).getD i []).getD j 0 = 4) ∧
    ∀ i' j' : Nat, (i', j') ≠ (i, j) →
      ((spawn_random_tile g pick coin).getD i' []).getD j' 0 =
      (g.getD i' []).getD j' 0 := by
  have hmem : (i, j) ∈ emptyCells g := by rw [h1]; simp
  rw [mem_emptyCells] at hmem
  obtain ⟨hi, hj, hz⟩ := hmem
  have hspawn : spawn_random_tile g pick coin =
      g.set i ((g.getD i []).set j (if coin then 2 else 4)) := by
    simp only [spawn_random_tile, h1]
    rw [if_neg (by simp)]
    simp [Nat.mod_one]
  rw [hspawn]
  constructor
  · rw [getDg_set_self g i _ hi, getD_set_self _ j _ hj]
    cases coin <;> simp
  · intro i' j' hne
    by_cases hii : i' = i
    · subst hii
      have hjj : j' ≠ j := by
        intro hh
        exact hne (by rw [hh])
      rw [getDg_set_self g i' _ hi]
      exact getD_set_ne _ j j' _ (fun hh => hjj hh.symm)
    · rw [getDg_set_ne g i i' _ (fun hh => hii hh.symm)]

/-- C8 witness: concrete grid with a single empty cell. -/
theorem claim_C8_witness :
    emptyCells [[2,4],[8,0]] = [(1, 1)] ∧
    ((((spawn_random_tile [[2,4],[8,0]] 5 false).getD 1 []).getD 1 0 = 2 ∨
      ((spawn_random_tile [[2,4],[8,0]] 5 false).getD 1 []).getD 1 0 = 4) ∧
     ∀ i' j' : Nat, (i', j') ≠ (1, 1) →
       ((spawn_random_tile [[2,4],[8,0]] 5 false).getD i' []).getD j' 0 =
       (([[2,4],[8,0]] : Grid).getD i' []).getD j' 0) :=
  ⟨by decide, claim_C8 [[2,4],[8,0]] 5 false 1 1 (by decide)⟩

/-- C9: `spawn_random_tile` never modifies a nonzero cell, for every outcome of
the randomness source, and on a grid with no empty cell it is a no-op. -/
theorem claim_C9 (g : Grid) (pick : Nat) (coin : Bool) :
    (∀ i j : Nat, (g.getD i []).getD j 0 ≠ 0 →
      ((spawn_random_tile g pick coin).getD i []).getD j 0 =
      (g.getD i []).getD j 0) ∧
    ((∀ i, i < g.length → ∀ j, j < (g.getD i []).length → (g.getD i []).getD j 0 ≠ 0) →
      spawn_random_tile g pick coin = g) := by
  by_cases hc : emptyCells g = []
  · have hid : spawn_random_tile g pick coin = g := by
      simp only [spawn_random_tile, hc]
      simp
    rw [hid]
    exact ⟨fun _ _ _ => rfl, fun _ => rfl⟩
  · have hlen : 0 < (emptyCells g).length := List.length_pos.mpr hc
    have hcmem : (emptyCells g).getD (pick % (emptyCells g).length) (0, 0) ∈ emptyCells g := by
      rw [List.getD_eq_getElem _ _ (Nat.mod_lt _ hlen)]
      exact List.getElem_mem _
    obtain ⟨hci, hcj, hcz⟩ := (mem_emptyCells g
      ((emptyCells g).getD (pick % (emptyCells g).length) (0, 0)).1
      ((emptyCells g).getD (pick % (emptyCells g).length) (0, 0)).2).1 (by simpa using hcmem)
    have hspawn : spawn_random_tile g pick coin =
        g.set ((emptyCells g).getD (pick % (emptyCells g).length) (0, 0)).1
          ((g.getD ((emptyCells g).getD (pick % (emptyCells g).length) (0, 0)).1 []).set
            ((emptyCells g).getD (pick % (emptyCells g).length) (0, 0)).2
            (if coin then 2 else 4)) := by
      simp only [spawn_random_tile, if_neg hc]
    constructor
    · intro i j hne0
      rw [hspawn]
      by_cases hii : i = ((emptyCells g).getD (pick % (emptyCells g).length) (0, 0)).1
      · rw [hii, getDg_set_self _ _ _ hci]
        have hjj : ((emptyCells g).getD (pick % (emptyCells g).length) (0, 0)).2 ≠ j := by
          intro hh
          rw [hii, ← hh] at hne0
          exact hne0 hcz
        exact getD_set_ne _ _ j _ hjj
      · rw [getDg_set_ne _ _ _ _ (fun hh => hii hh.symm)]
    · intro hall
      exact absurd hcz (hall _ hci _ hcj)

/-- C9 witness: nonzero cells survive a spawn, and a full grid is unchanged. -/
theorem claim_C9_witness :
    ((([[2,4],[8,0]] : Grid).getD 0 []).getD 0 0 ≠ 0) ∧
    ((spawn_random_tile [[2,4],[8,0]] 3 true).getD 0 []).getD 0 0 =
      (([[2,4],[8,0]] : Grid).getD 0 []).getD 0 0 ∧
    (∀ i, i < ([[2,4],[8,2]] : Grid).length →
      ∀ j, j < (([[2,4],[8,2]] : Grid).getD i []).length →
        (([[2,4],[8,2]] : Grid).getD i []).getD j 0 ≠ 0) ∧
    spawn_random_tile [[2,4],[8,2]] 3 true = [[2,4],[8,2]] :=
  ⟨by decide, (claim_C9 [[2,4],[8,0]] 3 true).1 0 0 (by decide), by decide,
    (claim_C9 [[2,4],[8,2]] 3 true).2 (by decide)⟩

/-! Tile-value closure: every cell stays 0 or a positive power of two. -/

/-- A legal cell value: empty, or a tile reachable by doubling from 2 or 4. -/
def isTile (x : Nat) : Prop := x = 0 ∨ ∃ k, x = 2 ^ (k + 1)

/-- Every cell of the grid is a legal cell value. -/
def allTiles (g : Grid) : Prop := ∀ r ∈ g, ∀ x ∈ r, isTile x

/-- Dimension preservation: same number of rows, same length of each row. -/
def dimsEq (g h : Grid) : Prop :=
  h.length = g.length ∧ ∀ i : Nat, (h.getD i []).length = (g.getD i []).length

theorem isTile_zero : isTile 0 := Or.inl rfl

theorem isTile_double (x : Nat) (h : isTile x) (hx : x ≠ 0) : isTile (2 * x) := by
  rcases h with h | ⟨k, rfl⟩
  · exact absurd h hx
  · right
    exact ⟨k + 1, by ring⟩

theorem getD_mem_or (l : List Nat) (n : Nat) : l.getD n 0 ∈ l ∨ l.getD n 0 = 0 := by
  by_cases h : n < l.length
  · left
    rw [List.getD_eq_getElem l 0 h]
    exact List.getElem_mem h
  · right
    exact getD_zero_of_le l n (by omega)

theorem rowTiles_swapAdj (l : List Nat) (k : Nat) (h : ∀ x ∈ l, isTile x) :
    ∀ x ∈ swapAdj l k, isTile x := by
  intro x hx
  simp only [swapAdj] at hx
  rcases List.mem_or_eq_of_mem_set hx with h1 | h1
  · rcases List.mem_or_eq_of_mem_set h1 with h2 | h2
    · exact h x h2
    · rcases getD_mem_or l (k + 1) with h3 | h3
      · exact h _ (h2 ▸ h3)
      · rw [h2, h3]; exact isTile_zero
  · rcases getD_mem_or l k with h3 | h3
    · exact h _ (h1 ▸ h3)
    · rw [h1, h3]; exact isTile_zero

theorem slideL_tiles (k : Nat) : ∀ l m, (∀ x ∈ l, isTile x) →
    ∀ x ∈ (slideL k l m).1, isTile x := by
  induction k with
  | zero => intro l m h; exact h
  | succ k ih =>
    intro l m h
    by_cases hc : l.getD k 0 = 0
    · simp only [slideL, if_pos hc]
      exact ih _ _ (rowTiles_swapAdj l k h)
    · simp only [slideL, if_neg hc]
      exact h

theorem foldSlideL_tiles (js : List Nat) : ∀ (l : List Nat) (m : Bool),
    (∀ x ∈ l, isTile x) →
    ∀ x ∈ (js.foldl (fun q i => slideL i q.1 q.2) ((l, m) : List Nat × Bool)).1, isTile x := by
  induction js with
  | nil => intro l m h; exact h
  | cons j js ih =>
    intro l m h
    simp only [List.foldl_cons]
    rcases hj : slideL j l m with ⟨l', m'⟩
    have h' : ∀ x ∈ l', isTile x := by
      have := slideL_tiles j l m h
      rw [hj] at this
      exact this
    exact ih l' m' h'

theorem compactL_tiles (p : List Nat × Bool) (h : ∀ x ∈ p.1, isTile x) :
    ∀ x ∈ (compactL p).1, isTile x := by
  rcases p with ⟨l, m⟩
  exact foldSlideL_tiles _ l m h

theorem compactL3_eq (l : List Nat) : compactL3 l = (compactL (l, false)).1 := by
  simp only [compactL]
  rw [foldSlideL_fst]
  rfl

theorem mergeLStep_tiles (p : List Nat × Bool) (i : Nat) (h : ∀ x ∈ p.1, isTile x) :
    ∀ x ∈ (mergeLStep p i).1, isTile x := by
  by_cases hc : p.1.getD i 0 ≠ 0 ∧ p.1.getD i 0 = p.1.getD (i + 1) 0
  · simp only [mergeLStep, if_pos hc]
    intro x hx
    rcases List.mem_or_eq_of_mem_set hx with h1 | h1
    · rcases List.mem_or_eq_of_mem_set h1 with h2 | h2
      · exact h x h2
      · have hv : isTile (p.1.getD i 0) := by
          rcases getD_mem_or p.1 i with h3 | h3
          · exact h _ h3
          · exact absurd h3 hc.1
        rw [h2]
        exact isTile_double _ hv hc.1
    · rw [h1]; exact isTile_zero
  · simp only [mergeLStep, if_neg hc]
    exact h

theorem foldMergeL_tiles (js : List Nat) : ∀ p : List Nat × Bool,
    (∀ x ∈ p.1, isTile x) → ∀ x ∈ (js.foldl mergeLStep p).1, isTile x := by
  induction js with
  | nil => intro p h; exact h
  | cons j js ih =>
    intro p h
    simp only [List.foldl_cons]
    exact ih _ (mergeLStep_tiles p j h)

theorem pipeL_tiles (p : List Nat × Bool) (h : ∀ x ∈ p.1, isTile x) :
    ∀ x ∈ (pipeL p).1, isTile x := by
  simp only [pipeL, compactL3_eq]
  exact compactL_tiles _ (foldMergeL_tiles _ _ (compactL_tiles p h))

theorem slideRF_tiles (f : Nat) : ∀ l m k, (∀ x ∈ l, isTile x) →
    ∀ x ∈ (slideRF f l m k).1, isTile x := by
  induction f with
  | zero => intro l m k h; exact h
  | succ f ih =>
    intro l m k h
    by_cases hc : k < l.length - 1 ∧ l.getD (k + 1) 0 = 0
    · simp only [slideRF, if_pos hc]
      exact ih _ _ _ (rowTiles_swapAdj l k h)
    · simp only [slideRF, if_neg hc]
      exact h

theorem foldSlideR_tiles (js : List Nat) : ∀ (l : List Nat) (m : Bool),
    (∀ x ∈ l, isTile x) →
    ∀ x ∈ (js.foldl (fun q i => slideRF q.1.length q.1 q.2 i)
      ((l, m) : List Nat × Bool)).1, isTile x := by
  induction js with
  | nil => intro l m h; exact h
  | cons j js ih =>
    intro l m h
    simp only [List.foldl_cons]
    rcases hj : slideRF l.length l m j with ⟨l', m'⟩
    have h' : ∀ x ∈ l', isTile x := by
      have := slideRF_tiles l.length l m j h
      rw [hj] at this
      exact this
    exact ih l' m' h'

theorem compactR_tiles (p : List Nat × Bool) (h : ∀ x ∈ p.1, isTile x) :
    ∀ x ∈ (compactR p).1, isTile x := by
  rcases p with ⟨l, m⟩
  exact foldSlideR_tiles _ l m h

theorem compactR3_eq (l : List Nat) : compactR3 l = (compactR (l, false)).1 := by
  simp only [compactR]
  rw [foldSlideR_fst]
  rfl

theorem mergeRStep_tiles (p : List Nat × Bool) (i : Nat) (h : ∀ x ∈ p.1, isTile x) :
    ∀ x ∈ (mergeRStep p i).1, isTile x := by
  by_cases hc : p.1.getD i 0 ≠ 0 ∧ p.1.getD i 0 = p.1.getD (i + 1) 0
  · simp only [mergeRStep, if_pos hc]
    intro x hx
    rcases List.mem_or_eq_of_mem_set hx with h1 | h1
    · rcases List.mem_or_eq_of_mem_set h1 with h2 | h2
      · exact h x h2
      · have hv : isTile (p.1.getD i 0) := by
          rcases getD_mem_or p.1 i with h3 | h3
          · exact h _ h3
          · exact absurd h3 hc.1
        rw [h2]
        exact isTile_double _ hv hc.1
    · rw [h1]; exact isTile_zero
  · simp only [mergeRStep, if_neg hc]
    exact h

theorem foldMergeR_tiles (js : List Nat) : ∀ p : List Nat × Bool,
    (∀ x ∈ p.1, isTile x) → ∀ x ∈ (js.foldl mergeRStep p).1, isTile x := by
  induction js with
  | nil => intro p h; exact h
  | cons j js ih =>
    intro p h
    simp only [List.foldl_cons]
    exact ih _ (mergeRStep_tiles p j h)

theorem pipeR_tiles (p : List Nat × Bool) (h : ∀ x ∈ p.1, isTile x) :
    ∀ x ∈ (pipeR p).1, isTile x := by
  simp only [pipeR, compactR3_eq]
  exact compactR_tiles _ (foldMergeR_tiles _ _ (compactR_tiles p h))

theorem getCol_tiles (g : Grid) (j : Nat) (h : allTiles g) :
    ∀ x ∈ getCol g j, isTile x := by
  intro x hx
  simp only [getCol, List.mem_map] at hx
  obtain ⟨r, hr, hxr⟩ := hx
  rcases getD_mem_or r j with h1 | h1
  · exact h r hr x (hxr ▸ h1)
  · rw [← hxr, h1]; exact isTile_zero

theorem mem_setCol_val (g : Grid) (j : Nat) (r' : List Nat) :
    ∀ c : List Nat, r' ∈ setCol g j c → ∃ r ∈ g, ∃ v ∈ c, r' = r.set j v := by
  induction g with
  | nil => intro c h; simp [setCol] at h
  | cons r gs ih =>
    intro c h
    cases c with
    | nil => simp [setCol] at h
    | cons v cs =>
      simp only [setCol, List.zipWith_cons_cons, List.mem_cons] at h
      rcases h with h | h
      · exact ⟨r, by simp, v, by simp, h⟩
      · obtain ⟨r0, hr0, v0, hv0, he⟩ := ih cs h
        exact ⟨r0, by simp [hr0], v0, by simp [hv0], he⟩

theorem setCol_tiles (g : Grid) (j : Nat) (c : List Nat) (hg : allTiles g)
    (hc : ∀ x ∈ c, isTile x) : allTiles (setCol g j c) := by
  intro r' hr' x hx
  obtain ⟨r, hr, v, hv, he⟩ := mem_setCol_val g j r' c hr'
  rw [he] at hx
  rcases List.mem_or_eq_of_mem_set hx with h1 | h1
  · exact hg r hr x h1
  · rw [h1]; exact hc v hv

theorem foldUp_tiles (js : List Nat) : ∀ (g : Grid) (m : Bool), allTiles g →
    allTiles ((js.foldl (fun (q : Grid × Bool) j =>
      (setCol q.1 j (pipeL (getCol q.1 j, false)).1, q.2 || (pipeL (getCol q.1 j, false)).2))
      ((g, m) : Grid × Bool)).1) := by
  induction js with
  | nil => intro g m h; exact h
  | cons j js ih =>
    intro g m h
    simp only [List.foldl_cons]
    exact ih _ _ (setCol_tiles _ _ _ h (pipeL_tiles _ (getCol_tiles g j h)))

theorem foldDown_tiles (js : List Nat) : ∀ (g : Grid) (m : Bool), allTiles g →
    allTiles ((js.foldl (fun (q : Grid × Bool) j =>
      (setCol q.1 j (pipeR (getCol q.1 j, false)).1, q.2 || (pipeR (getCol q.1 j, false)).2))
      ((g, m) : Grid × Bool)).1) := by
  induction js with
  | nil => intro g m h; exact h
  | cons j js ih =>
    intro g m h
    simp only [List.foldl_cons]
    exact ih _ _ (setCol_tiles _ _ _ h (pipeR_tiles _ (getCol_tiles g j h)))

theorem getDg_mem (g : Grid) (i : Nat) (h : i < g.length) : g.getD i [] ∈ g := by
  rw [List.getD_eq_getElem g [] h]
  exact List.getElem_mem h

theorem spawn_tiles (g : Grid) (pick : Nat) (coin : Bool) (h : allTiles g) :
    allTiles (spawn_random_tile g pick coin) := by
  by_cases hc : emptyCells g = []
  · have hid : spawn_random_tile g pick coin = g := by
      simp only [spawn_random_tile, hc]
      simp
    rw [hid]; exact h
  · have hlen : 0 < (emptyCells g).length := List.length_pos.mpr hc
    have hcmem : (emptyCells g).getD (pick % (emptyCells g).length) (0, 0) ∈ emptyCells g := by
      rw [List.getD_eq_getElem _ _ (Nat.mod_lt _ hlen)]
      exact List.getElem_mem _
    obtain ⟨hci, _, _⟩ := (mem_emptyCells g
      ((emptyCells g).getD (pick % (emptyCells g).length) (0, 0)).1
      ((emptyCells g).getD (pick % (emptyCells g).length) (0, 0)).2).1 (by simpa using hcmem)
    have hspawn : spawn_random_tile g pick coin =
        g.set ((emptyCells g).getD (pick % (emptyCells g).length) (0, 0)).1
          ((g.getD ((emptyCells g).getD (pick % (emptyCells g).length) (0, 0)).1 []).set
            ((emptyCells g).getD (pick % (emptyCells g).length) (0, 0)).2
            (if coin then 2 else 4)) := by
      simp only [spawn_random_tile, if_neg hc]
    rw [hspawn]
    intro r' hr' x hx
    rcases List.mem_or_eq_of_mem_set hr' with h1 | h1
    · exact h r' h1 x hx
    · rw [h1] at hx
      rcases List.mem_or_eq_of_mem_set hx with h2 | h2
      · exact h _ (getDg_mem g _ hci) x h2
      · rw [h2]
        cases coin
        · exact Or.inr ⟨1, by norm_num⟩
        · exact Or.inr ⟨0, by norm_num⟩

/-! Dimension preservation. -/

theorem getDg_nil_of_le (g : Grid) (i : Nat) (h : g.length ≤ i) : g.getD i [] = [] := by
  simp [List.getD, List.getElem?_eq_none h]

theorem rowlen_map_pipeL (g : Grid) (i : Nat) :
    ((g.map (fun r => (pipeL (r, false)).1)).getD i []).length = (g.getD i []).length := by
  by_cases h : i < g.length
  · rw [List.getD_eq_getElem _ [] (by simpa using h), List.getD_eq_getElem _ [] h]
    simp only [List.getElem_map]
    exact pipeL_length _
  · rw [getDg_nil_of_le _ _ (by simp only [List.length_map]; omega),
        getDg_nil_of_le _ _ (by omega)]

theorem rowlen_map_pipeR (g : Grid) (i : Nat) :
    ((g.map (fun r => (pipeR (r, false)).1)).getD i []).length = (g.getD i []).length := by
  by_cases h : i < g.length
  · rw [List.getD_eq_getElem _ [] (by simpa using h), List.getD_eq_getElem _ [] h]
    simp only [List.getElem_map]
    exact pipeR_length _
  · rw [getDg_nil_of_le _ _ (by simp only [List.length_map]; omega),
        getDg_nil_of_le _ _ (by omega)]

theorem move_left_dims (g : Grid) : dimsEq g (move_left g).1 := by
  constructor
  · simp [move_left]
  · intro i
    exact rowlen_map_pipeL g i

theorem move_right_dims (g : Grid) : dimsEq g (move_right g).1 := by
  constructor
  · simp [move_right]
  · intro i
    exact rowlen_map_pipeR g i

theorem setCol_length (g : Grid) (j : Nat) (c : List Nat) (h : c.length = g.length) :
    (setCol g j c).length = g.length := by
  simp [setCol, h]

theorem rowlen_setCol (j : Nat) : ∀ (g : Grid) (c : List Nat) (i : Nat),
    c.length = g.length →
    ((setCol g j c).getD i []).length = (g.getD i []).length := by
  intro g
  induction g with
  | nil =>
    intro c i hc
    rw [List.length_nil, List.length_eq_zero] at hc
    subst hc
    rfl
  | cons r gs ih =>
    intro c i hc
    cases c with
    | nil => simp at hc
    | cons v cs =>
      simp only [setCol, List.zipWith_cons_cons]
      cases i with
      | zero => simp [List.getD]
      | succ i =>
        simp only [List.getD_cons_succ]
        exact ih cs i (by simpa using hc)

theorem foldUp_dims (js : List Nat) : ∀ (g : Grid) (m : Bool),
    ((js.foldl (fun (q : Grid × Bool) j =>
      (setCol q.1 j (pipeL (getCol q.1 j, false)).1, q.2 || (pipeL (getCol q.1 j, false)).2))
      ((g, m) : Grid × Bool)).1.length = g.length ∧
     ∀ i : Nat, (((js.foldl (fun (q : Grid × Bool) j =>
      (setCol q.1 j (pipeL (getCol q.1 j, false)).1, q.2 || (pipeL (getCol q.1 j, false)).2))
      ((g, m) : Grid × Bool)).1.getD i []).length = ((g.getD i [] : List Nat)).length)) := by
  induction js with
  | nil => intro g m; exact ⟨rfl, fun _ => rfl⟩
  | cons j js ih =>
    intro g m
    simp only [List.foldl_cons]
    have hcl : (pipeL (getCol g j, false)).1.length = g.length := by
      rw [pipeL_length]; exact getCol_length g j
    obtain ⟨ih1, ih2⟩ := ih (setCol g j (pipeL (getCol g j, false)).1)
      (m || (pipeL (getCol g j, false)).2)
    constructor
    · rw [ih1, setCol_length _ _ _ hcl]
    · intro i
      rw [ih2 i, rowlen_setCol j g _ i hcl]

theorem foldDown_dims (js : List Nat) : ∀ (g : Grid) (m : Bool),
    ((js.foldl (fun (q : Grid × Bool) j =>
      (setCol q.1 j (pipeR (getCol q.1 j, false)).1, q.2 || (pipeR (getCol q.1 j, false)).2))
      ((g, m) : Grid × Bool)).1.length = g.length ∧
     ∀ i : Nat, (((js.foldl (fun (q : Grid × Bool) j =>
      (setCol q.1 j (pipeR (getCol q.1 j, false)).1, q.2 || (pipeR (getCol q.1 j, false)).2))
      ((g, m) : Grid × Bool)).1.getD i []).length = ((g.getD i [] : List Nat)).length)) := by
  induction js with
  | nil => intro g m; exact ⟨rfl, fun _ => rfl⟩
  | cons j js ih =>
    intro g m
    simp only [List.foldl_cons]
    have hcl : (pipeR (getCol g j, false)).1.length = g.length := by
      rw [pipeR_length]; exact getCol_length g j
    obtain ⟨ih1, ih2⟩ := ih (setCol g j (pipeR (getCol g j, false)).1)
      (m || (pipeR (getCol g j, false)).2)
    constructor
    · rw [ih1, setCol_length _ _ _ hcl]
    · intro i
      rw [ih2 i, rowlen_setCol j g _ i hcl]

theorem move_up_dims (g : Grid) : dimsEq g (move_up g).1 := by
  simp only [move_up]
  exact ⟨(foldUp_dims _ g false).1, (foldUp_dims _ g false).2⟩

theorem move_down_dims (g : Grid) : dimsEq g (move_down g).1 := by
  simp only [move_down]
  exact ⟨(foldDown_dims _ g false).1, (foldDown_dims _ g false).2⟩

theorem spawn_dims (g : Grid) (pick : Nat) (coin : Bool) :
    dimsEq g (spawn_random_tile g pick coin) := by
  by_cases hc : emptyCells g = []
  · have hid : spawn_random_tile g pick coin = g := by
      simp only [spawn_random_tile, hc]
      simp
    rw [hid]
    exact ⟨rfl, fun _ => rfl⟩
  · have hlen : 0 < (emptyCells g).length := List.length_pos.mpr hc
    have hcmem : (emptyCells g).getD (pick % (emptyCells g).length) (0, 0) ∈ emptyCells g := by
      rw [List.getD_eq_getElem _ _ (Nat.mod_lt _ hlen)]
      exact List.getElem_mem _
    obtain ⟨hci, hcj, _⟩ := (mem_emptyCells g
      ((emptyCells g).getD (pick % (emptyCells g).length) (0, 0)).1
      ((emptyCells g).getD (pick % (emptyCells g).length) (0, 0)).2).1 (by simpa using hcmem)
    have hspawn : spawn_random_tile g pick coin =
        g.set ((emptyCells g).getD (pick % (emptyCells g).length) (0, 0)).1
          ((g.getD ((emptyCells g).getD (pick % (emptyCells g).length) (0, 0)).1 []).set
            ((emptyCells g).getD (pick % (emptyCells g).length) (0, 0)).2
            (if coin then 2 else 4)) := by
      simp only [spawn_random_tile, if_neg hc]
    rw [hspawn]
    constructor
    · simp
    · intro i
      by_cases hii : i = ((emptyCells g).getD (pick % (emptyCells g).length) (0, 0)).1
      · rw [hii, getDg_set_self _ _ _ hci]
        simp [List.length_set]
      · rw [getDg_set_ne _ _ _ _ (fun hh => hii hh.symm)]

/-- C10: every engine operation (the four moves and spawn with any randomness
outcome) preserves the grid dimensions, and preserves the invariant that every
cell is 0 or a positive power of two. -/
theorem claim_C10 (g : Grid) (pick : Nat) (coin : Bool) :
    (dimsEq g (move_left g).1 ∧ dimsEq g (move_right g).1 ∧
     dimsEq g (move_up g).1 ∧ dimsEq g (move_down g).1 ∧
     dimsEq g (spawn_random_tile g pick coin)) ∧
    (allTiles g →
      allTiles (move_left g).1 ∧ allTiles (move_right g).1 ∧
      allTiles (move_up g).1 ∧ allTiles (move_down g).1 ∧
      allTiles (spawn_random_tile g pick coin)) := by
  constructor
  · exact ⟨move_left_dims g, move_right_dims g, move_up_dims g, move_down_dims g,
      spawn_dims g pick coin⟩
  · intro h
    refine ⟨?_, ?_, ?_, ?_, spawn_tiles g pick coin h⟩
    · intro r' hr' x hx
      simp only [move_left, List.mem_map] at hr'
      obtain ⟨r, hr, he⟩ := hr'
      exact pipeL_tiles (r, false) (h r hr) x (he ▸ hx)
    · intro r' hr' x hx
      simp only [move_right, List.mem_map] at hr'
      obtain ⟨r, hr, he⟩ := hr'
      exact pipeR_tiles (r, false) (h r hr) x (he ▸ hx)
    · simp only [move_up]
      exact foldUp_tiles _ g false h
    · simp only [move_down]
      exact foldDown_tiles _ g false h

/-- C10 witness: concrete instantiation of the dimension part and of the
tile-value part on a grid of zeros and tiles. -/
theorem claim_C10_witness :
    allTiles [[2,4,0,0],[0,0,0,0],[0,0,0,0],[0,0,0,8]] ∧
    (dimsEq [[2,4,0,0],[0,0,0,0],[0,0,0,0],[0,0,0,8]]
      (move_left [[2,4,0,0],[0,0,0,0],[0,0,0,0],[0,0,0,8]]).1 ∧
     dimsEq [[2,4,0,0],[0,0,0,0],[0,0,0,0],[0,0,0,8]]
      (move_right [[2,4,0,0],[0,0,0,0],[0,0,0,0],[0,0,0,8]]).1 ∧
     dimsEq [[2,4,0,0],[0,0,0,0],[0,0,0,0],[0,0,0,8]]
      (move_up [[2,4,0,0],[0,0,0,0],[0,0,0,0],[0,0,0,8]]).1 ∧
     dimsEq [[2,4,0,0],[0,0,0,0],[0,0,0,0],[0,0,0,8]]
      (move_down [[2,4,0,0],[0,0,0,0],[0,0,0,0],[0,0,0,8]]).1 ∧
     dimsEq [[2,4,0,0],[0,0,0,0],[0,0,0,0],[0,0,0,8]]
      (spawn_random_tile [[2,4,0,0],[0,0,0,0],[0,0,0,0],[0,0,0,8]] 9 true)) ∧
    (allTiles (move_left [[2,4,0,0],[0,0,0,0],[0,0,0,0],[0,0,0,8]]).1 ∧
     allTiles (move_right [[2,4,0,0],[0,0,0,0],[0,0,0,0],[0,0,0,8]]).1 ∧
     allTiles (move_up [[2,4,0,0],[0,0,0,0],[0,0,0,0],[0,0,0,8]]).1 ∧
     allTiles (move_down [[2,4,0,0],[0,0,0,0],[0,0,0,0],[0,0,0,8]]).1 ∧
     allTiles (spawn_random_tile [[2,4,0,0],[0,0,0,0],[0,0,0,0],[0,0,0,8]] 9 true)) := by
  have ht : allTiles [[2,4,0,0],[0,0,0,0],[0,0,0,0],[0,0,0,8]] := by
    intro r hr x hx
    simp only [List.mem_cons, List.not_mem_nil, or_false] at hr
    rcases hr with rfl | rfl | rfl | rfl <;> simp only [List.mem_cons, List.not_mem_nil, or_false] at hx
    · rcases hx with rfl | rfl | rfl | rfl
      · exact Or.inr ⟨0, by norm_num⟩
      · exact Or.inr ⟨1, by norm_num⟩
      · exact isTile_zero
      · exact isTile_zero
    · rcases hx with rfl | rfl | rfl | rfl <;> exact isTile_zero
    · rcases hx with rfl | rfl | rfl | rfl <;> exact isTile_zero
    · rcases hx with rfl | rfl | rfl | rfl
      · exact isTile_zero
      · exact isTile_zero
      · exact isTile_zero
      · exact Or.inr ⟨2, by norm_num⟩
  exact ⟨ht, (claim_C10 [[2,4,0,0],[0,0,0,0],[0,0,0,0],[0,0,0,8]] 9 true).1,
    (claim_C10 [[2,4,0,0],[0,0,0,0],[0,0,0,0],[0,0,0,8]] 9 true).2 ht⟩

set_option maxHeartbeats 1000000 in
/-- C3: `can_make_move` returns false iff no cell is zero, no two
horizontally-adjacent cells of a row are equal and no two vertically-adjacent
cells of a column are equal; in particular any grid with a zero cell gives
true.  Stated over an arbitrary 4x4 grid of cell values. -/
theorem claim_C3 (a b c d e f g0 h0 i0 j0 k0 l0 m0 n0 o0 p0 : Nat) :
    (can_make_move [[a,b,c,d],[e,f,g0,h0],[i0,j0,k0,l0],[m0,n0,o0,p0]] = false ↔
     ((a ≠ 0 ∧ b ≠ 0 ∧ c ≠ 0 ∧ d ≠ 0 ∧ e ≠ 0 ∧ f ≠ 0 ∧ g0 ≠ 0 ∧ h0 ≠ 0 ∧
       i0 ≠ 0 ∧ j0 ≠ 0 ∧ k0 ≠ 0 ∧ l0 ≠ 0 ∧ m0 ≠ 0 ∧ n0 ≠ 0 ∧ o0 ≠ 0 ∧ p0 ≠ 0) ∧
      (a ≠ b ∧ b ≠ c ∧ c ≠ d ∧ e ≠ f ∧ f ≠ g0 ∧ g0 ≠ h0 ∧
       i0 ≠ j0 ∧ j0 ≠ k0 ∧ k0 ≠ l0 ∧ m0 ≠ n0 ∧ n0 ≠ o0 ∧ o0 ≠ p0) ∧
      (a ≠ e ∧ e ≠ i0 ∧ i0 ≠ m0 ∧ b ≠ f ∧ f ≠ j0 ∧ j0 ≠ n0 ∧
       c ≠ g0 ∧ g0 ≠ k0 ∧ k0 ≠ o0 ∧ d ≠ h0 ∧ h0 ≠ l0 ∧ l0 ≠ p0))) ∧
    ((a = 0 ∨ b = 0 ∨ c = 0 ∨ d = 0 ∨ e = 0 ∨ f = 0 ∨ g0 = 0 ∨ h0 = 0 ∨
      i0 = 0 ∨ j0 = 0 ∨ k0 = 0 ∨ l0 = 0 ∨ m0 = 0 ∨ n0 = 0 ∨ o0 = 0 ∨ p0 = 0) →
      can_make_move [[a,b,c,d],[e,f,g0,h0],[i0,j0,k0,l0],[m0,n0,o0,p0]] = true) := by
  have hiff : can_make_move [[a,b,c,d],[e,f,g0,h0],[i0,j0,k0,l0],[m0,n0,o0,p0]] = false ↔
     ((a ≠ 0 ∧ b ≠ 0 ∧ c ≠ 0 ∧ d ≠ 0 ∧ e ≠ 0 ∧ f ≠ 0 ∧ g0 ≠ 0 ∧ h0 ≠ 0 ∧
       i0 ≠ 0 ∧ j0 ≠ 0 ∧ k0 ≠ 0 ∧ l0 ≠ 0 ∧ m0 ≠ 0 ∧ n0 ≠ 0 ∧ o0 ≠ 0 ∧ p0 ≠ 0) ∧
      (a ≠ b ∧ b ≠ c ∧ c ≠ d ∧ e ≠ f ∧ f ≠ g0 ∧ g0 ≠ h0 ∧
       i0 ≠ j0 ∧ j0 ≠ k0 ∧ k0 ≠ l0 ∧ m0 ≠ n0 ∧ n0 ≠ o0 ∧ o0 ≠ p0) ∧
      (a ≠ e ∧ e ≠ i0 ∧ i0 ≠ m0 ∧ b ≠ f ∧ f ≠ j0 ∧ j0 ≠ n0 ∧
       c ≠ g0 ∧ g0 ≠ k0 ∧ k0 ≠ o0 ∧ d ≠ h0 ∧ h0 ≠ l0 ∧ l0 ≠ p0)) := by
    simp [can_make_move, List.range_succ, List.getD]
    tauto
  refine ⟨hiff, ?_⟩
  intro hz
  cases hcan : can_make_move [[a,b,c,d],[e,f,g0,h0],[i0,j0,k0,l0],[m0,n0,o0,p0]] with
  | true => rfl
  | false =>
    exfalso
    have := hiff.1 hcan
    tauto

/-- C3 witness: the zero-cell hypothesis discharged at a concrete grid. -/
theorem claim_C3_witness :
    (((2:Nat) = 0 ∨ (4:Nat) = 0 ∨ (2:Nat) = 0 ∨ (4:Nat) = 0 ∨ (4:Nat) = 0 ∨
      (2:Nat) = 0 ∨ (4:Nat) = 0 ∨ (2:Nat) = 0 ∨ (2:Nat) = 0 ∨ (4:Nat) = 0 ∨
      (2:Nat) = 0 ∨ (4:Nat) = 0 ∨ (4:Nat) = 0 ∨ (2:Nat) = 0 ∨ (4:Nat) = 0 ∨
      (0:Nat) = 0)) ∧
    can_make_move [[2,4,2,4],[4,2,4,2],[2,4,2,4],[4,2,4,0]] = true :=
  ⟨by decide, (claim_C3 2 4 2 4 4 2 4 2 2 4 2 4 4 2 4 0).2 (by decide)⟩

/-! Length-4 case analysis of the left/up line pipeline. -/

theorem eq_four_of_length {α : Type} (l : List α) (h : l.length = 4) :
    ∃ a b c d, l = [a, b, c, d] := by
  rcases l with _ | ⟨a, _ | ⟨b, _ | ⟨c, _ | ⟨d, _ | ⟨e, t⟩⟩⟩⟩⟩ <;> simp at h
  exact ⟨a, b, c, d, rfl⟩

theorem compactedL_of_nonzero (l : List Nat) (h : ∀ x ∈ l, x ≠ 0) :
    compactedL l = true := by
  induction l with
  | nil => rfl
  | cons x xs ih =>
    simp only [compactedL]
    rw [if_neg (h x (by simp))]
    exact ih (fun y hy => h y (by simp [hy]))

theorem compactL_fst (l : List Nat) (m : Bool) : (compactL (l, m)).1 = compactL3 l := by
  simp only [compactL]
  rw [foldSlideL_fst]
  rfl

theorem compactR_fst (l : List Nat) (m : Bool) : (compactR (l, m)).1 = compactR3 l := by
  simp only [compactR]
  rw [foldSlideR_fst]
  rfl

set_option maxHeartbeats 2000000 in
theorem mergeL_eq_mergeOnce (a b c d : Nat) (m : Bool) :
    (mergeLPass ([a,b,c,d], m)).1 = mergeOnce [a,b,c,d] := by
  simp only [mergeLPass]
  rw [show List.range ((([a,b,c,d] : List Nat)).length - 1) = [0,1,2] from rfl]
  simp only [List.foldl_cons, List.foldl_nil, mergeOnce]
  rw [show (([a,b,c,d] : List Nat)).length = 4 from rfl]
  simp only [mergeLStep, mergeOnceF, List.getD]
  split_ifs <;> simp_all

set_option maxHeartbeats 2000000 in
theorem compactL3_compacted4 (a b c d : Nat) : compactedL (compactL3 [a,b,c,d]) = true := by
  simp only [compactL3]
  rw [show List.range' 1 ((([a,b,c,d] : List Nat)).length - 1) = [1,2,3] from rfl]
  simp only [List.foldl_cons, List.foldl_nil, slideN, swapAdj, List.getD]
  split_ifs <;> simp_all [compactedL]

set_option maxHeartbeats 2000000 in
theorem compactL3_fix (a b c d : Nat) (h : compactedL [a,b,c,d] = true) :
    compactL3 [a,b,c,d] = [a,b,c,d] := by
  simp only [compactedL] at h
  simp only [compactL3]
  rw [show List.range' 1 ((([a,b,c,d] : List Nat)).length - 1) = [1,2,3] from rfl]
  simp only [List.foldl_cons, List.foldl_nil, slideN, swapAdj, List.getD]
  split_ifs <;> simp_all

set_option maxHeartbeats 2000000 in
theorem compactL3_nz4 (a b c d : Nat) :
    nzCount (compactL3 [a,b,c,d]) = nzCount [a,b,c,d] := by
  simp only [compactL3]
  rw [show List.range' 1 ((([a,b,c,d] : List Nat)).length - 1) = [1,2,3] from rfl]
  simp only [List.foldl_cons, List.foldl_nil, slideN, swapAdj, List.getD, nzCount,
    List.foldr_cons, List.foldr_nil]
  split_ifs <;> simp_all

set_option maxHeartbeats 2000000 in
theorem mergeL_id_of_noPair (a b c d : Nat) (m : Bool)
    (h : hasAdjPair [a,b,c,d] = false) : (mergeLPass ([a,b,c,d], m)).1 = [a,b,c,d] := by
  simp only [hasAdjPair] at h
  rw [show List.range ((([a,b,c,d] : List Nat)).length - 1) = [0,1,2] from rfl] at h
  simp only [List.any_cons, List.any_nil, List.getD, Bool.or_eq_false_iff,
    Bool.and_eq_false_iff, decide_eq_false_iff_not, not_not] at h
  simp only [mergeLPass]
  rw [show List.range ((([a,b,c,d] : List Nat)).length - 1) = [0,1,2] from rfl]
  simp only [List.foldl_cons, List.foldl_nil, mergeLStep, List.getD]
  split_ifs <;> simp_all

set_option maxHeartbeats 2000000 in
theorem mergeL_nz_lt (a b c d : Nat) (m : Bool)
    (h : hasAdjPair [a,b,c,d] = true) :
    nzCount ((mergeLPass ([a,b,c,d], m)).1) < nzCount [a,b,c,d] := by
  simp only [hasAdjPair] at h
  rw [show List.range ((([a,b,c,d] : List Nat)).length - 1) = [0,1,2] from rfl] at h
  simp only [List.any_cons, List.any_nil, List.getD, Bool.or_eq_true,
    Bool.and_eq_true, decide_eq_true_eq] at h
  simp only [mergeLPass]
  rw [show List.range ((([a,b,c,d] : List Nat)).length - 1) = [0,1,2] from rfl]
  simp only [List.foldl_cons, List.foldl_nil, mergeLStep, List.getD, nzCount,
    List.foldr_cons, List.foldr_nil]
  split_ifs <;> simp_all

theorem pipeL_out_compacted (l : List Nat) (hl : l.length = 4) :
    compactedL (pipeL (l, false)).1 = true := by
  have hx : (mergeLPass (compactL (l, false))).1.length = 4 := by
    rw [mergeLPass_length, compactL_length]
    exact hl
  obtain ⟨a, b, c, d, he⟩ := eq_four_of_length _ hx
  simp only [pipeL]
  rw [he]
  exact compactL3_compacted4 a b c d

theorem pipeL_fix_iff (s : List Nat) (hs : s.length = 4)
    (hcomp : compactedL s = true) :
    ((pipeL (s, false)).1 = s ↔ hasAdjPair s = false) := by
  obtain ⟨a, b, c, d, rfl⟩ := eq_four_of_length s hs
  constructor
  · intro hfix
    cases hpair : hasAdjPair [a,b,c,d] with
    | false => rfl
    | true =>
      exfalso
      have hlt : nzCount (pipeL ([a,b,c,d], false)).1 < nzCount [a,b,c,d] := by
        simp only [pipeL]
        rcases hq : compactL ([a,b,c,d], false) with ⟨cl, fl⟩
        have hcl : cl = [a,b,c,d] := by
          have h1 : (compactL ([a,b,c,d], false)).1 = compactL3 [a,b,c,d] :=
            compactL_fst [a,b,c,d] false
          rw [hq] at h1
          have h2 : cl = compactL3 [a,b,c,d] := h1
          rw [h2]
          exact compactL3_fix a b c d hcomp
        subst hcl
        have hx : (mergeLPass ([a,b,c,d], fl)).1.length = 4 := by
          rw [mergeLPass_length]
          rfl
        obtain ⟨w, x, y, z, he⟩ := eq_four_of_length _ hx
        rw [he]
        have hml := mergeL_nz_lt a b c d fl hpair
        rw [he] at hml
        calc nzCount (compactL3 [w,x,y,z]) = nzCount [w,x,y,z] := compactL3_nz4 w x y z
          _ < nzCount [a,b,c,d] := hml
      rw [hfix] at hlt
      omega
  · intro hpair
    simp only [pipeL]
    rcases hq : compactL ([a,b,c,d], false) with ⟨cl, fl⟩
    have hcl : cl = [a,b,c,d] := by
      have h1 : (compactL ([a,b,c,d], false)).1 = compactL3 [a,b,c,d] :=
        compactL_fst [a,b,c,d] false
      rw [hq] at h1
      have h2 : cl = compactL3 [a,b,c,d] := h1
      rw [h2]
      exact compactL3_fix a b c d hcomp
    subst hcl
    rw [mergeL_id_of_noPair a b c d fl hpair]
    exact compactL3_fix a b c d hcomp

theorem pipeL_second (l : List Nat) (hl : l.length = 4) :
    ((pipeL ((pipeL (l, false)).1, false)).1 = (pipeL (l, false)).1 ↔
     hasAdjPair (pipeL (l, false)).1 = false) :=
  pipeL_fix_iff _ (by rw [pipeL_length]; exact hl) (pipeL_out_compacted l hl)

theorem pipeL_ne_of_pair_nonzero (l : List Nat) (hl : l.length = 4)
    (hz : ∀ x ∈ l, x ≠ 0) (hp : hasAdjPair l = true) :
    (pipeL (l, false)).1 ≠ l := by
  obtain ⟨a, b, c, d, rfl⟩ := eq_four_of_length l hl
  have hcomp : compactedL [a,b,c,d] = true := compactedL_of_nonzero _ hz
  intro hfix
  have := (pipeL_fix_iff [a,b,c,d] (by simp) hcomp).1 hfix
  rw [hp] at this
  exact absurd this (by simp)

/-! Length-4 case analysis of the right/down line pipeline, and the
interaction of left- and right-compactedness. -/

set_option maxHeartbeats 4000000 in
theorem compactR3_compacted4 (a b c d : Nat) : compactedR (compactR3 [a,b,c,d]) = true := by
  simp only [compactR3]
  rw [show ((List.range ((([a,b,c,d] : List Nat)).length - 1)).reverse) = [2,1,0] from rfl]
  simp only [List.foldl_cons, List.foldl_nil, slideRN_length, slideRN, swapAdj, List.getD,
    List.length_cons, List.length_nil]
  split_ifs <;>
    simp_all [compactedR, slideRN_length, slideRN, swapAdj, List.getD] <;>
    (try (split_ifs <;> simp_all [compactedR, slideRN_length, slideRN, swapAdj, List.getD]))

set_option maxHeartbeats 4000000 in
theorem compactR3_fix (a b c d : Nat) (h : compactedR [a,b,c,d] = true) :
    compactR3 [a,b,c,d] = [a,b,c,d] := by
  simp only [compactedR, List.all_cons, List.all_nil] at h
  simp only [compactR3]
  rw [show ((List.range ((([a,b,c,d] : List Nat)).length - 1)).reverse) = [2,1,0] from rfl]
  simp only [List.foldl_cons, List.foldl_nil, slideRN_length, slideRN, swapAdj, List.getD,
    List.length_cons, List.length_nil]
  split_ifs <;>
    simp_all [slideRN_length, slideRN, swapAdj, List.getD] <;>
    (try (split_ifs <;> simp_all [slideRN_length, slideRN, swapAdj, List.getD]))

set_option maxHeartbeats 4000000 in
theorem compactR3_nz4 (a b c d : Nat) :
    nzCount (compactR3 [a,b,c,d]) = nzCount [a,b,c,d] := by
  simp only [compactR3]
  rw [show ((List.range ((([a,b,c,d] : List Nat)).length - 1)).reverse) = [2,1,0] from rfl]
  simp only [List.foldl_cons, List.foldl_nil, slideRN_length, slideRN, swapAdj, List.getD,
    List.length_cons, List.length_nil, nzCount, List.foldr_cons, List.foldr_nil]
  split_ifs <;>
    simp_all [slideRN_length, slideRN, swapAdj, List.getD, nzCount] <;>
    (try (split_ifs <;> simp_all [slideRN_length, slideRN, swapAdj, List.getD, nzCount]))

set_option maxHeartbeats 4000000 in
theorem mergeR_id_of_noPair (a b c d : Nat) (m : Bool)
    (h : hasAdjPair [a,b,c,d] = false) : (mergeRPass ([a,b,c,d], m)).1 = [a,b,c,d] := by
  simp only [hasAdjPair] at h
  rw [show List.range ((([a,b,c,d] : List Nat)).length - 1) = [0,1,2] from rfl] at h
  simp only [List.any_cons, List.any_nil, List.getD, Bool.or_eq_false_iff,
    Bool.and_eq_false_iff, decide_eq_false_iff_not, not_not] at h
  simp only [mergeRPass]
  rw [show ((List.range ((([a,b,c,d] : List Nat)).length - 1)).reverse) = [2,1,0] from rfl]
  simp only [List.foldl_cons, List.foldl_nil, mergeRStep, List.getD]
  split_ifs <;> simp_all

set_option maxHeartbeats 4000000 in
theorem mergeR_nz_lt (a b c d : Nat) (m : Bool)
    (h : hasAdjPair [a,b,c,d] = true) :
    nzCount ((mergeRPass ([a,b,c,d], m)).1) < nzCount [a,b,c,d] := by
  simp only [hasAdjPair] at h
  rw [show List.range ((([a,b,c,d] : List Nat)).length - 1) = [0,1,2] from rfl] at h
  simp only [List.any_cons, List.any_nil, List.getD, Bool.or_eq_true,
    Bool.and_eq_true, decide_eq_true_eq] at h
  simp only [mergeRPass]
  rw [show ((List.range ((([a,b,c,d] : List Nat)).length - 1)).reverse) = [2,1,0] from rfl]
  simp only [List.foldl_cons, List.foldl_nil, mergeRStep, List.getD, nzCount,
    List.foldr_cons, List.foldr_nil]
  split_ifs <;> simp_all

set_option maxHeartbeats 4000000 in
theorem mergeR_eq_mergeOnceRev (a b c d : Nat) (m : Bool) :
    (mergeRPass ([a,b,c,d], m)).1 = (mergeOnce [d,c,b,a]).reverse := by
  simp only [mergeRPass]
  rw [show ((List.range ((([a,b,c,d] : List Nat)).length - 1)).reverse) = [2,1,0] from rfl]
  simp only [List.foldl_cons, List.foldl_nil, mergeOnce]
  rw [show (([d,c,b,a] : List Nat)).length = 4 from rfl]
  simp only [mergeRStep, mergeOnceF, List.getD]
  split_ifs <;> simp_all

theorem pipeR_out_compacted (l : List Nat) (hl : l.length = 4) :
    compactedR (pipeR (l, false)).1 = true := by
  have hx : (mergeRPass (compactR (l, false))).1.length = 4 := by
    rw [mergeRPass_length, compactR_length]
    exact hl
  obtain ⟨a, b, c, d, he⟩ := eq_four_of_length _ hx
  simp only [pipeR]
  rw [he]
  exact compactR3_compacted4 a b c d

theorem pipeR_fix_iff (s : List Nat) (hs : s.length = 4)
    (hcomp : compactedR s = true) :
    ((pipeR (s, false)).1 = s ↔ hasAdjPair s = false) := by
  obtain ⟨a, b, c, d, rfl⟩ := eq_four_of_length s hs
  constructor
  · intro hfix
    cases hpair : hasAdjPair [a,b,c,d] with
    | false => rfl
    | true =>
      exfalso
      have hlt : nzCount (pipeR ([a,b,c,d], false)).1 < nzCount [a,b,c,d] := by
        simp only [pipeR]
        rcases hq : compactR ([a,b,c,d], false) with ⟨cl, fl⟩
        have hcl : cl = [a,b,c,d] := by
          have h1 : (compactR ([a,b,c,d], false)).1 = compactR3 [a,b,c,d] :=
            compactR_fst [a,b,c,d] false
          rw [hq] at h1
          have h2 : cl = compactR3 [a,b,c,d] := h1
          rw [h2]
          exact compactR3_fix a b c d hcomp
        subst hcl
        have hx : (mergeRPass ([a,b,c,d], fl)).1.length = 4 := by
          rw [mergeRPass_length]
          rfl
        obtain ⟨w, x, y, z, he⟩ := eq_four_of_length _ hx
        rw [he]
        have hml := mergeR_nz_lt a b c d fl hpair
        rw [he] at hml
        calc nzCount (compactR3 [w,x,y,z]) = nzCount [w,x,y,z] := compactR3_nz4 w x y z
          _ < nzCount [a,b,c,d] := hml
      rw [hfix] at hlt
      omega
  · intro hpair
    simp only [pipeR]
    rcases hq : compactR ([a,b,c,d], false) with ⟨cl, fl⟩
    have hcl : cl = [a,b,c,d] := by
      have h1 : (compactR ([a,b,c,d], false)).1 = compactR3 [a,b,c,d] :=
        compactR_fst [a,b,c,d] false
      rw [hq] at h1
      have h2 : cl = compactR3 [a,b,c,d] := h1
      rw [h2]
      exact compactR3_fix a b c d hcomp
    subst hcl
    rw [mergeR_id_of_noPair a b c d fl hpair]
    exact compactR3_fix a b c d hcomp

theorem pipeR_second (l : List Nat) (hl : l.length = 4) :
    ((pipeR ((pipeR (l, false)).1, false)).1 = (pipeR (l, false)).1 ↔
     hasAdjPair (pipeR (l, false)).1 = false) :=
  pipeR_fix_iff _ (by rw [pipeR_length]; exact hl) (pipeR_out_compacted l hl)

set_option maxHeartbeats 1000000 in
theorem not_compactedLR (a b c d : Nat) (hL : compactedL [a,b,c,d] = true)
    (hR : compactedR [a,b,c,d] = true)
    (hz : a = 0 ∨ b = 0 ∨ c = 0 ∨ d = 0)
    (hnz : a ≠ 0 ∨ b ≠ 0 ∨ c ≠ 0 ∨ d ≠ 0) : False := by
  simp only [compactedL, compactedR, List.all_cons, List.all_nil] at hL hR
  split_ifs at hL hR <;> simp_all

/-! Column characterisation of the vertical moves. -/

theorem map_eq_self_iff {α : Type} (l : List α) (f : α → α) :
    l.map f = l ↔ ∀ x ∈ l, f x = x := by
  constructor
  · intro h
    induction l with
    | nil => intro x hx; simp at hx
    | cons y ys ih =>
      simp only [List.map_cons, List.cons.injEq] at h
      intro x hx
      rcases List.mem_cons.1 hx with rfl | hx'
      · exact h.1
      · exact ih h.2 x hx'
  · exact map_eq_self_of l f

theorem getCol_setCol_same (j : Nat) : ∀ (g : Grid) (c : List Nat),
    c.length = g.length → (∀ r ∈ g, j < r.length) →
    getCol (setCol g j c) j = c := by
  intro g
  induction g with
  | nil =>
    intro c hc _
    rw [List.length_nil, List.length_eq_zero] at hc
    subst hc
    rfl
  | cons r gs ih =>
    intro c hc hrow
    cases c with
    | nil => simp at hc
    | cons v cs =>
      simp only [setCol, List.zipWith_cons_cons, getCol, List.map_cons, List.cons.injEq]
      constructor
      · exact getD_set_self r j v (hrow r (by simp))
      · have := ih cs (by simpa using hc) (fun r0 h0 => hrow r0 (by simp [h0]))
        simpa [getCol, setCol] using this

theorem getCol_setCol_ne (j j' : Nat) (hne : j' ≠ j) : ∀ (g : Grid) (c : List Nat),
    c.length = g.length →
    getCol (setCol g j c) j' = getCol g j' := by
  intro g
  induction g with
  | nil =>
    intro c hc
    rw [List.length_nil, List.length_eq_zero] at hc
    subst hc
    rfl
  | cons r gs ih =>
    intro c hc
    cases c with
    | nil => simp at hc
    | cons v cs =>
      simp only [setCol, List.zipWith_cons_cons, getCol, List.map_cons, List.cons.injEq]
      constructor
      · exact getD_set_ne r j j' v (fun hh => hne hh.symm)
      · have := ih cs (by simpa using hc)
        simpa [getCol, setCol] using this

theorem setCol_rect (w j : Nat) (g : Grid) (c : List Nat)
    (hrect : ∀ r ∈ g, r.length = w) :
    ∀ r' ∈ setCol g j c, r'.length = w := by
  intro r' hr'
  obtain ⟨r, hr, v, _, he⟩ := mem_setCol_val g j r' c hr'
  rw [he, List.length_set]
  exact hrect r hr

theorem foldUp_getCol (w : Nat) (js : List Nat) : ∀ (g : Grid) (m : Bool),
    (∀ r ∈ g, r.length = w) → (∀ j ∈ js, j < w) → js.Nodup →
    ∀ j, j < w →
    getCol ((js.foldl (fun (q : Grid × Bool) j =>
      (setCol q.1 j (pipeL (getCol q.1 j, false)).1, q.2 || (pipeL (getCol q.1 j, false)).2))
      ((g, m) : Grid × Bool)).1) j =
      (if j ∈ js then (pipeL (getCol g j, false)).1 else getCol g j) := by
  induction js with
  | nil =>
    intro g m _ _ _ j _
    simp
  | cons j0 js ih =>
    intro g m hrect hb hnd j hjw
    have hj0w : j0 < w := hb j0 (by simp)
    have hc0len : (pipeL (getCol g j0, false)).1.length = g.length := by
      rw [pipeL_length]
      exact getCol_length g j0
    have hrect1 : ∀ r ∈ setCol g j0 (pipeL (getCol g j0, false)).1, r.length = w :=
      setCol_rect w j0 g _ hrect
    have hnd' := List.nodup_cons.1 hnd
    simp only [List.foldl_cons]
    rw [ih (setCol g j0 (pipeL (getCol g j0, false)).1)
      (m || (pipeL (getCol g j0, false)).2) hrect1
      (fun i hi => hb i (by simp [hi])) hnd'.2 j hjw]
    by_cases hjj : j = j0
    · subst hjj
      rw [if_neg (fun hmem => hnd'.1 hmem), if_pos (by simp)]
      exact getCol_setCol_same j g _ hc0len
        (fun r hr => by rw [hrect r hr]; exact hj0w)
    · rw [getCol_setCol_ne j0 j (fun hh => hjj hh) g _ hc0len]
      by_cases hmem : j ∈ js
      · rw [if_pos hmem, if_pos (by simp [hmem])]
      · rw [if_neg hmem, if_neg (by simp [hjj, hmem])]

theorem foldDown_getCol (w : Nat) (js : List Nat) : ∀ (g : Grid) (m : Bool),
    (∀ r ∈ g, r.length = w) → (∀ j ∈ js, j < w) → js.Nodup →
    ∀ j, j < w →
    getCol ((js.foldl (fun (q : Grid × Bool) j =>
      (setCol q.1 j (pipeR (getCol q.1 j, false)).1, q.2 || (pipeR (getCol q.1 j, false)).2))
      ((g, m) : Grid × Bool)).1) j =
      (if j ∈ js then (pipeR (getCol g j, false)).1 else getCol g j) := by
  induction js with
  | nil =>
    intro g m _ _ _ j _
    simp
  | cons j0 js ih =>
    intro g m hrect hb hnd j hjw
    have hj0w : j0 < w := hb j0 (by simp)
    have hc0len : (pipeR (getCol g j0, false)).1.length = g.length := by
      rw [pipeR_length]
      exact getCol_length g j0
    have hrect1 : ∀ r ∈ setCol g j0 (pipeR (getCol g j0, false)).1, r.length = w :=
      setCol_rect w j0 g _ hrect
    have hnd' := List.nodup_cons.1 hnd
    simp only [List.foldl_cons]
    rw [ih (setCol g j0 (pipeR (getCol g j0, false)).1)
      (m || (pipeR (getCol g j0, false)).2) hrect1
      (fun i hi => hb i (by simp [hi])) hnd'.2 j hjw]
    by_cases hjj : j = j0
    · subst hjj
      rw [if_neg (fun hmem => hnd'.1 hmem), if_pos (by simp)]
      exact getCol_setCol_same j g _ hc0len
        (fun r hr => by rw [hrect r hr]; exact hj0w)
    · rw [getCol_setCol_ne j0 j (fun hh => hjj hh) g _ hc0len]
      by_cases hmem : j ∈ js
      · rw [if_pos hmem, if_pos (by simp [hmem])]
      · rw [if_neg hmem, if_neg (by simp [hjj, hmem])]

theorem list_ext_getD : ∀ (l1 l2 : List Nat), l1.length = l2.length →
    (∀ j, j < l1.length → l1.getD j 0 = l2.getD j 0) → l1 = l2 := by
  intro l1
  induction l1 with
  | nil =>
    intro l2 hlen _
    rw [List.length_nil] at hlen
    exact (List.length_eq_zero.1 hlen.symm).symm
  | cons x xs ih =>
    intro l2 hlen hval
    cases l2 with
    | nil => simp at hlen
    | cons y ys =>
      have hx : x = y := hval 0 (by simp)
      have ht : xs = ys := ih ys (by simpa using hlen)
        (fun j hj => by
          have := hval (j + 1) (by simpa using Nat.succ_lt_succ hj)
          simpa using this)
      rw [hx, ht]

theorem eq_of_cols (w : Nat) : ∀ (g1 g2 : Grid), g1.length = g2.length →
    (∀ r ∈ g1, r.length = w) → (∀ r ∈ g2, r.length = w) →
    (∀ j, j < w → getCol g1 j = getCol g2 j) → g1 = g2 := by
  intro g1
  induction g1 with
  | nil =>
    intro g2 hlen _ _ _
    rw [List.length_nil] at hlen
    exact (List.length_eq_zero.1 hlen.symm).symm
  | cons r1 gs1 ih =>
    intro g2 hlen hr1 hr2 hcols
    cases g2 with
    | nil => simp at hlen
    | cons r2 gs2 =>
      have hrow : r1 = r2 := by
        apply list_ext_getD r1 r2 (by rw [hr1 r1 (by simp), hr2 r2 (by simp)])
        intro j hj
        have hjw : j < w := by rw [← hr1 r1 (by simp)]; exact hj
        have := hcols j hjw
        simp only [getCol, List.map_cons, List.cons.injEq] at this
        exact this.1
      have htail : gs1 = gs2 := by
        apply ih gs2 (by simpa using hlen) (fun r hr => hr1 r (by simp [hr]))
          (fun r hr => hr2 r (by simp [hr]))
        intro j hjw
        have := hcols j hjw
        simp only [getCol, List.map_cons, List.cons.injEq] at this
        exact this.2
      rw [hrow, htail]

/-! Second-move characterisation: after a move, a second move in the same
direction changes the grid exactly when the moved grid still has an adjacent
equal nonzero pair along that direction. -/

theorem head_row_len (g : Grid) (h4 : g.length = 4) (hr : ∀ r ∈ g, r.length = 4) :
    (g.getD 0 []).length = 4 := by
  cases g with
  | nil => simp at h4
  | cons r gs => simpa using hr r (by simp)

theorem move_left_rows (g : Grid) (hr : ∀ r ∈ g, r.length = 4) :
    ∀ r' ∈ (move_left g).1, r'.length = 4 ∧ compactedL r' = true := by
  intro r' hr'
  simp only [move_left] at hr'
  obtain ⟨r0, hr0, he⟩ := List.mem_map.1 hr'
  subst he
  exact ⟨by rw [pipeL_length]; exact hr r0 hr0, pipeL_out_compacted r0 (hr r0 hr0)⟩

theorem move_right_rows (g : Grid) (hr : ∀ r ∈ g, r.length = 4) :
    ∀ r' ∈ (move_right g).1, r'.length = 4 ∧ compactedR r' = true := by
  intro r' hr'
  simp only [move_right] at hr'
  obtain ⟨r0, hr0, he⟩ := List.mem_map.1 hr'
  subst he
  exact ⟨by rw [pipeR_length]; exact hr r0 hr0, pipeR_out_compacted r0 (hr r0 hr0)⟩

theorem second_left_iff (g : Grid) (hr : ∀ r ∈ g, r.length = 4) :
    ((move_left ((move_left g).1)).2 = true ↔
     (move_left g).1.any hasAdjPair = true) := by
  rw [flag_iff_left]
  have hrows := move_left_rows g hr
  constructor
  · intro hne
    by_contra hno
    apply hne
    show ((move_left g).1).map (fun r => (pipeL (r, false)).1) = (move_left g).1
    rw [map_eq_self_iff]
    intro r hrma
    have hx := hrows r hrma
    have hnp : hasAdjPair r = false := by
      rcases hb : hasAdjPair r with _ | _
      · rfl
      · exfalso
        apply hno
        rw [List.any_eq_true]
        exact ⟨r, hrma, hb⟩
    exact (pipeL_fix_iff r hx.1 hx.2).2 hnp
  · intro hany heq
    rw [List.any_eq_true] at hany
    obtain ⟨r, hrm, hp⟩ := hany
    have hmapeq : ((move_left g).1).map (fun r => (pipeL (r, false)).1) = (move_left g).1 := heq
    have hfix : (pipeL (r, false)).1 = r := (map_eq_self_iff _ _).1 hmapeq r hrm
    have := (pipeL_fix_iff r (hrows r hrm).1 (hrows r hrm).2).1 hfix
    rw [hp] at this
    exact absurd this (by simp)

theorem second_right_iff (g : Grid) (hr : ∀ r ∈ g, r.length = 4) :
    ((move_right ((move_right g).1)).2 = true ↔
     (move_right g).1.any hasAdjPair = true) := by
  rw [flag_iff_right]
  have hrows := move_right_rows g hr
  constructor
  · intro hne
    by_contra hno
    apply hne
    show ((move_right g).1).map (fun r => (pipeR (r, false)).1) = (move_right g).1
    rw [map_eq_self_iff]
    intro r hrma
    have hx := hrows r hrma
    have hnp : hasAdjPair r = false := by
      rcases hb : hasAdjPair r with _ | _
      · rfl
      · exfalso
        apply hno
        rw [List.any_eq_true]
        exact ⟨r, hrma, hb⟩
    exact (pipeR_fix_iff r hx.1 hx.2).2 hnp
  · intro hany heq
    rw [List.any_eq_true] at hany
    obtain ⟨r, hrm, hp⟩ := hany
    have hmapeq : ((move_right g).1).map (fun r => (pipeR (r, false)).1) = (move_right g).1 := heq
    have hfix : (pipeR (r, false)).1 = r := (map_eq_self_iff _ _).1 hmapeq r hrm
    have := (pipeR_fix_iff r (hrows r hrm).1 (hrows r hrm).2).1 hfix
    rw [hp] at this
    exact absurd this (by simp)

theorem move_up_cols (g : Grid) (h4 : g.length = 4) (hr : ∀ r ∈ g, r.length = 4) :
    (∀ j, j < 4 → getCol (move_up g).1 j = (pipeL (getCol g j, false)).1) ∧
    (move_up g).1.length = 4 ∧ (∀ r ∈ (move_up g).1, r.length = 4) := by
  have hw := head_row_len g h4 hr
  refine ⟨?_, ?_, ?_⟩
  · intro j hj
    simp only [move_up]
    rw [hw]
    rw [foldUp_getCol 4 (List.range 4) g false hr (fun i hi => List.mem_range.1 hi)
      (List.nodup_range 4) j hj]
    rw [if_pos (List.mem_range.2 hj)]
  · simp only [move_up]
    rw [hw, (foldUp_dims (List.range 4) g false).1, h4]
  · simp only [move_up]
    rw [hw]
    exact (foldUp_sum 4 (List.range 4) g false hr (fun j hj => List.mem_range.1 hj)).2

theorem move_down_cols (g : Grid) (h4 : g.length = 4) (hr : ∀ r ∈ g, r.length = 4) :
    (∀ j, j < 4 → getCol (move_down g).1 j = (pipeR (getCol g j, false)).1) ∧
    (move_down g).1.length = 4 ∧ (∀ r ∈ (move_down g).1, r.length = 4) := by
  have hw := head_row_len g h4 hr
  refine ⟨?_, ?_, ?_⟩
  · intro j hj
    simp only [move_down]
    rw [hw]
    rw [foldDown_getCol 4 (List.range 4) g false hr (fun i hi => List.mem_range.1 hi)
      (List.nodup_range 4) j hj]
    rw [if_pos (List.mem_range.2 hj)]
  · simp only [move_down]
    rw [hw, (foldDown_dims (List.range 4) g false).1, h4]
  · simp only [move_down]
    rw [hw]
    exact (foldDown_sum 4 (List.range 4) g false hr (fun j hj => List.mem_range.1 hj)).2

theorem second_up_iff (g : Grid) (h4 : g.length = 4) (hr : ∀ r ∈ g, r.length = 4) :
    ((move_up ((move_up g).1)).2 = true ↔
     (List.range 4).any (fun j => hasAdjPair (getCol (move_up g).1 j)) = true) := by
  obtain ⟨hcols, hlen', hrect'⟩ := move_up_cols g h4 hr
  have hcolprops : ∀ j, j < 4 →
      (getCol (move_up g).1 j).length = 4 ∧
      compactedL (getCol (move_up g).1 j) = true := by
    intro j hj
    rw [hcols j hj]
    exact ⟨by rw [pipeL_length, getCol_length, h4],
      pipeL_out_compacted _ (by rw [getCol_length, h4])⟩
  have hw' := head_row_len (move_up g).1 hlen' hrect'
  obtain ⟨hcols2, hlen2, hrect2⟩ := move_up_cols (move_up g).1 hlen' hrect'
  rw [flag_iff_up]
  constructor
  · intro hne
    by_contra hno
    apply hne
    apply eq_of_cols 4 _ _ (by rw [hlen2, hlen']) hrect2 hrect'
    intro j hj
    rw [hcols2 j hj]
    have hnp : hasAdjPair (getCol (move_up g).1 j) = false := by
      rcases hb : hasAdjPair (getCol (move_up g).1 j) with _ | _
      · rfl
      · exfalso
        apply hno
        rw [List.any_eq_true]
        exact ⟨j, List.mem_range.2 hj, hb⟩
    exact (pipeL_fix_iff _ (hcolprops j hj).1 (hcolprops j hj).2).2 hnp
  · intro hany heq
    rw [List.any_eq_true] at hany
    obtain ⟨j, hjm, hp⟩ := hany
    have hj := List.mem_range.1 hjm
    have hfix : (pipeL (getCol (move_up g).1 j, false)).1 = getCol (move_up g).1 j := by
      rw [← hcols2 j hj, heq]
    have := (pipeL_fix_iff _ (hcolprops j hj).1 (hcolprops j hj).2).1 hfix
    rw [hp] at this
    exact absurd this (by simp)

theorem second_down_iff (g : Grid) (h4 : g.length = 4) (hr : ∀ r ∈ g, r.length = 4) :
    ((move_down ((move_down g).1)).2 = true ↔
     (List.range 4).any (fun j => hasAdjPair (getCol (move_down g).1 j)) = true) := by
  obtain ⟨hcols, hlen', hrect'⟩ := move_down_cols g h4 hr
  have hcolprops : ∀ j, j < 4 →
      (getCol (move_down g).1 j).length = 4 ∧
      compactedR (getCol (move_down g).1 j) = true := by
    intro j hj
    rw [hcols j hj]
    exact ⟨by rw [pipeR_length, getCol_length, h4],
      pipeR_out_compacted _ (by rw [getCol_length, h4])⟩
  obtain ⟨hcols2, hlen2, hrect2⟩ := move_down_cols (move_down g).1 hlen' hrect'
  rw [flag_iff_down]
  constructor
  · intro hne
    by_contra hno
    apply hne
    apply eq_of_cols 4 _ _ (by rw [hlen2, hlen']) hrect2 hrect'
    intro j hj
    rw [hcols2 j hj]
    have hnp : hasAdjPair (getCol (move_down g).1 j) = false := by
      rcases hb : hasAdjPair (getCol (move_down g).1 j) with _ | _
      · rfl
      · exfalso
        apply hno
        rw [List.any_eq_true]
        exact ⟨j, List.mem_range.2 hj, hb⟩
    exact (pipeR_fix_iff _ (hcolprops j hj).1 (hcolprops j hj).2).2 hnp
  · intro hany heq
    rw [List.any_eq_true] at hany
    obtain ⟨j, hjm, hp⟩ := hany
    have hj := List.mem_range.1 hjm
    have hfix : (pipeR (getCol (move_down g).1 j, false)).1 = getCol (move_down g).1 j := by
      rw [← hcols2 j hj, heq]
    have := (pipeR_fix_iff _ (hcolprops j hj).1 (hcolprops j hj).2).1 hfix
    rw [hp] at this
    exact absurd this (by simp)

/-- C2 counterexample: on the grid `[[2,2,2,2],0,0,0]` the first `move_left`
gives `[[4,4,0,0],0,0,0]` and a second `move_left` merges the two 4s, so the
second application returns changed=true, refuting the claim as stated. -/
theorem claim_C2_counterexample :
    (move_left ((move_left [[2,2,2,2],[0,0,0,0],[0,0,0,0],[0,0,0,0]]).1)).2 = true := by
  decide

/-- C2 (amended): for every 4x4 grid and each direction, the second
application of the same move (with no spawn in between) returns changed=true
iff the once-moved grid still contains two adjacent equal nonzero tiles along
that direction; absent such a pair, it returns changed=false. -/
theorem claim_C2 (g : Grid) (h4 : g.length = 4) (hr : ∀ r ∈ g, r.length = 4) :
    ((move_left ((move_left g).1)).2 = true ↔
      (move_left g).1.any hasAdjPair = true) ∧
    ((move_right ((move_right g).1)).2 = true ↔
      (move_right g).1.any hasAdjPair = true) ∧
    ((move_up ((move_up g).1)).2 = true ↔
      (List.range 4).any (fun j => hasAdjPair (getCol (move_up g).1 j)) = true) ∧
    ((move_down ((move_down g).1)).2 = true ↔
      (List.range 4).any (fun j => hasAdjPair (getCol (move_down g).1 j)) = true) :=
  ⟨second_left_iff g hr, second_right_iff g hr, second_up_iff g h4 hr,
    second_down_iff g h4 hr⟩

/-- C2 witness: the amended characterisation instantiated at a concrete grid. -/
theorem claim_C2_witness :
    (([[2,2,2,2],[0,0,0,0],[0,0,0,0],[0,0,0,0]] : Grid).length = 4 ∧
     (∀ r ∈ ([[2,2,2,2],[0,0,0,0],[0,0,0,0],[0,0,0,0]] : Grid), r.length = 4)) ∧
    (((move_left ((move_left [[2,2,2,2],[0,0,0,0],[0,0,0,0],[0,0,0,0]]).1)).2 = true ↔
      (move_left [[2,2,2,2],[0,0,0,0],[0,0,0,0],[0,0,0,0]]).1.any hasAdjPair = true) ∧
     ((move_right ((move_right [[2,2,2,2],[0,0,0,0],[0,0,0,0],[0,0,0,0]]).1)).2 = true ↔
      (move_right [[2,2,2,2],[0,0,0,0],[0,0,0,0],[0,0,0,0]]).1.any hasAdjPair = true) ∧
     ((move_up ((move_up [[2,2,2,2],[0,0,0,0],[0,0,0,0],[0,0,0,0]]).1)).2 = true ↔
      (List.range 4).any (fun j =>
        hasAdjPair (getCol (move_up [[2,2,2,2],[0,0,0,0],[0,0,0,0],[0,0,0,0]]).1 j)) = true) ∧
     ((move_down ((move_down [[2,2,2,2],[0,0,0,0],[0,0,0,0],[0,0,0,0]]).1)).2 = true ↔
      (List.range 4).any (fun j =>
        hasAdjPair (getCol (move_down [[2,2,2,2],[0,0,0,0],[0,0,0,0],[0,0,0,0]]).1 j)) = true)) :=
  ⟨⟨by decide, by decide⟩,
    claim_C2 [[2,2,2,2],[0,0,0,0],[0,0,0,0],[0,0,0,0]] (by decide) (by decide)⟩

/-! Helper lemmas for the terminal-check claim C4. -/

theorem getCol_getD (j : Nat) : ∀ (g : Grid) (i : Nat),
    (getCol g j).getD i 0 = (g.getD i []).getD j 0 := by
  intro g
  induction g with
  | nil => intro i; cases i <;> rfl
  | cons r gs ih =>
    intro i
    cases i with
    | zero => rfl
    | succ i =>
      simp only [getCol, List.map_cons, List.getD_cons_succ]
      exact ih i

theorem mixed_row_flag (g : Grid) (hr : ∀ r ∈ g, r.length = 4) (r : List Nat)
    (hmem : r ∈ g) (hz : ∃ x ∈ r, x = 0) (hnzr : ∃ x ∈ r, x ≠ 0) :
    (move_left g).2 = true ∨ (move_right g).2 = true := by
  have hlen := hr r hmem
  have hKey : (pipeL (r, false)).1 ≠ r ∨ (pipeR (r, false)).1 ≠ r := by
    by_contra hno
    push_neg at hno
    obtain ⟨hL, hR⟩ := hno
    have hcL : compactedL r = true := by rw [← hL]; exact pipeL_out_compacted r hlen
    have hcR : compactedR r = true := by rw [← hR]; exact pipeR_out_compacted r hlen
    obtain ⟨a, b, c, d, rfl⟩ := eq_four_of_length r hlen
    apply not_compactedLR a b c d hcL hcR
    · obtain ⟨x, hx, hx0⟩ := hz
      subst hx0
      simp only [List.mem_cons, List.not_mem_nil, or_false] at hx
      omega
    · obtain ⟨x, hx, hx0⟩ := hnzr
      simp only [List.mem_cons, List.not_mem_nil, or_false] at hx
      omega
  rcases hKey with hL | hR
  · left
    rw [flag_iff_left]
    intro heq
    have hmapeq : g.map (fun r => (pipeL (r, false)).1) = g := heq
    exact hL ((map_eq_self_iff _ _).1 hmapeq r hmem)
  · right
    rw [flag_iff_right]
    intro heq
    have hmapeq : g.map (fun r => (pipeR (r, false)).1) = g := heq
    exact hR ((map_eq_self_iff _ _).1 hmapeq r hmem)

theorem mixed_col_flag (g : Grid) (h4 : g.length = 4) (hr : ∀ r ∈ g, r.length = 4)
    (j : Nat) (hj : j < 4)
    (hz : ∃ x ∈ getCol g j, x = 0) (hnzc : ∃ x ∈ getCol g j, x ≠ 0) :
    (move_up g).2 = true ∨ (move_down g).2 = true := by
  have hclen : (getCol g j).length = 4 := by rw [getCol_length, h4]
  have hKey : (pipeL (getCol g j, false)).1 ≠ getCol g j ∨
      (pipeR (getCol g j, false)).1 ≠ getCol g j := by
    by_contra hno
    push_neg at hno
    obtain ⟨hL, hR⟩ := hno
    have hcL : compactedL (getCol g j) = true := by
      rw [← hL]; exact pipeL_out_compacted _ hclen
    have hcR : compactedR (getCol g j) = true := by
      rw [← hR]; exact pipeR_out_compacted _ hclen
    obtain ⟨a, b, c, d, he⟩ := eq_four_of_length _ hclen
    rw [he] at hcL hcR hz hnzc
    apply not_compactedLR a b c d hcL hcR
    · obtain ⟨x, hx, hx0⟩ := hz
      subst hx0
      simp only [List.mem_cons, List.not_mem_nil, or_false] at hx
      omega
    · obtain ⟨x, hx, hx0⟩ := hnzc
      simp only [List.mem_cons, List.not_mem_nil, or_false] at hx
      omega
  rcases hKey with hL | hR
  · left
    rw [flag_iff_up]
    intro heq
    have hc := (move_up_cols g h4 hr).1 j hj
    rw [heq] at hc
    exact hL hc.symm
  · right
    rw [flag_iff_down]
    intro heq
    have hc := (move_down_cols g h4 hr).1 j hj
    rw [heq] at hc
    exact hR hc.symm

theorem pair_row_flag (g : Grid) (hr : ∀ r ∈ g, r.length = 4) (r : List Nat)
    (hmem : r ∈ g) (hallnz : ∀ x ∈ r, x ≠ 0) (hp : hasAdjPair r = true) :
    (move_left g).2 = true := by
  have hne := pipeL_ne_of_pair_nonzero r (hr r hmem) hallnz hp
  rw [flag_iff_left]
  intro heq
  have hmapeq : g.map (fun r => (pipeL (r, false)).1) = g := heq
  exact hne ((map_eq_self_iff _ _).1 hmapeq r hmem)

theorem pair_col_flag (g : Grid) (h4 : g.length = 4) (hr : ∀ r ∈ g, r.length = 4)
    (j : Nat) (hj : j < 4)
    (hallnz : ∀ x ∈ getCol g j, x ≠ 0) (hp : hasAdjPair (getCol g j) = true) :
    (move_up g).2 = true := by
  have hne := pipeL_ne_of_pair_nonzero (getCol g j) (by rw [getCol_length, h4]) hallnz hp
  rw [flag_iff_up]
  intro heq
  have hc := (move_up_cols g h4 hr).1 j hj
  rw [heq] at hc
  exact hne hc.symm

/-- C4 counterexample: the all-zero grid has `can_make_move = true` (it has a
zero cell) but every directional move leaves it unchanged and returns false. -/
theorem claim_C4_counterexample :
    can_make_move [[0,0,0,0],[0,0,0,0],[0,0,0,0],[0,0,0,0]] = true ∧
    (move_left [[0,0,0,0],[0,0,0,0],[0,0,0,0],[0,0,0,0]]).2 = false ∧
    (move_right [[0,0,0,0],[0,0,0,0],[0,0,0,0],[0,0,0,0]]).2 = false ∧
    (move_up [[0,0,0,0],[0,0,0,0],[0,0,0,0],[0,0,0,0]]).2 = false ∧
    (move_down [[0,0,0,0],[0,0,0,0],[0,0,0,0],[0,0,0,0]]).2 = false := by
  decide

/-- C4 (amended): on every 4x4 grid that contains at least one nonzero cell,
if `can_make_move` returns true then at least one of the four directional
moves returns changed=true.  (The all-zero grid is the exception forcing the
amendment: there `can_make_move` is true but no move changes anything.) -/
theorem claim_C4 (g : Grid) (h4 : g.length = 4) (hr : ∀ r ∈ g, r.length = 4)
    (hnz : ∃ r ∈ g, ∃ x ∈ r, x ≠ 0)
    (hcan : can_make_move g = true) :
    (move_left g).2 = true ∨ (move_right g).2 = true ∨
    (move_up g).2 = true ∨ (move_down g).2 = true := by
  have hzero_case : ∀ r0 ∈ g, (∃ x ∈ r0, x = 0) →
      ((move_left g).2 = true ∨ (move_right g).2 = true ∨
       (move_up g).2 = true ∨ (move_down g).2 = true) := by
    intro r0 hmem0 hz0
    by_cases hmix : ∃ x ∈ r0, x ≠ 0
    · rcases mixed_row_flag g hr r0 hmem0 hz0 hmix with h | h
      · exact Or.inl h
      · exact Or.inr (Or.inl h)
    · push_neg at hmix
      obtain ⟨r1, hmem1, x1, hx1m, hx1⟩ := hnz
      obtain ⟨j1, hj1lt, hj1⟩ := List.getElem_of_mem hx1m
      have hj14 : j1 < 4 := by rw [← hr r1 hmem1]; exact hj1lt
      have hznc : ∃ x ∈ getCol g j1, x = 0 := by
        refine ⟨r0.getD j1 0, List.mem_map_of_mem _ hmem0, ?_⟩
        rcases getD_mem_or r0 j1 with hm | hm
        · exact hmix _ hm
        · exact hm
      have hnzc : ∃ x ∈ getCol g j1, x ≠ 0 := by
        refine ⟨r1.getD j1 0, List.mem_map_of_mem _ hmem1, ?_⟩
        rw [List.getD_eq_getElem r1 0 hj1lt, hj1]
        exact hx1
      rcases mixed_col_flag g h4 hr j1 hj14 hznc hnzc with h | h
      · exact Or.inr (Or.inr (Or.inl h))
      · exact Or.inr (Or.inr (Or.inr h))
  simp only [can_make_move, Bool.or_eq_true, List.any_eq_true] at hcan
  rcases hcan with ⟨row, hrowm, i, him, hcond⟩ | ⟨col, hcolm, rr, hrrm, hveq⟩
  · have hilen : i < row.length := List.mem_range.1 him
    have hmemD : row.getD i 0 ∈ row := by
      rw [List.getD_eq_getElem row 0 hilen]
      exact List.getElem_mem hilen
    simp only [Bool.or_eq_true, Bool.and_eq_true, decide_eq_true_eq] at hcond
    rcases hcond with hzi | ⟨hilt, heq⟩
    · exact hzero_case row hrowm ⟨row.getD i 0, hmemD, hzi⟩
    · by_cases hz0 : row.getD i 0 = 0
      · exact hzero_case row hrowm ⟨row.getD i 0, hmemD, hz0⟩
      · by_cases hrowz : ∃ x ∈ row, x = 0
        · rcases mixed_row_flag g hr row hrowm hrowz ⟨row.getD i 0, hmemD, hz0⟩ with h | h
          · exact Or.inl h
          · exact Or.inr (Or.inl h)
        · push_neg at hrowz
          have hp : hasAdjPair row = true := by
            simp only [hasAdjPair, List.any_eq_true]
            refine ⟨i, List.mem_range.2 hilt, ?_⟩
            simp only [Bool.and_eq_true, decide_eq_true_eq]
            exact ⟨hz0, heq⟩
          exact Or.inl (pair_row_flag g hr row hrowm hrowz hp)
  · simp only [decide_eq_true_eq] at hveq
    have hcol4 : col < 4 := by
      have := List.mem_range.1 hcolm
      rwa [head_row_len g h4 hr] at this
    have hrrlt : rr < g.length - 1 := List.mem_range.1 hrrm
    have hrowmem : g.getD rr [] ∈ g := getDg_mem g rr (by omega)
    have hmemD : (g.getD rr []).getD col 0 ∈ g.getD rr [] := by
      have hcl : col < (g.getD rr []).length := by
        rw [hr _ hrowmem]; exact hcol4
      rw [List.getD_eq_getElem _ 0 hcl]
      exact List.getElem_mem hcl
    by_cases hz0 : (g.getD rr []).getD col 0 = 0
    · exact hzero_case (g.getD rr []) hrowmem ⟨(g.getD rr []).getD col 0, hmemD, hz0⟩
    · by_cases hcolz : ∃ x ∈ getCol g col, x = 0
      · have hnzc : ∃ x ∈ getCol g col, x ≠ 0 :=
          ⟨(g.getD rr []).getD col 0, by
            have : (g.getD rr []).getD col 0 = (fun r => r.getD col 0) (g.getD rr []) := rfl
            rw [this]
            exact List.mem_map_of_mem _ hrowmem, hz0⟩
        rcases mixed_col_flag g h4 hr col hcol4 hcolz hnzc with h | h
        · exact Or.inr (Or.inr (Or.inl h))
        · exact Or.inr (Or.inr (Or.inr h))
      · push_neg at hcolz
        have hp : hasAdjPair (getCol g col) = true := by
          simp only [hasAdjPair, List.any_eq_true]
          refine ⟨rr, List.mem_range.2 ?_, ?_⟩
          · rw [getCol_length]
            exact hrrlt
          · rw [getCol_getD col g rr, getCol_getD col g (rr + 1)]
            simp only [Bool.and_eq_true, decide_eq_true_eq]
            exact ⟨hz0, hveq⟩
        exact Or.inr (Or.inr (Or.inl (pair_col_flag g h4 hr col hcol4 hcolz hp)))

/-- C4 witness: the amended claim applied to a concrete grid. -/
theorem claim_C4_witness :
    (([[2,0,0,0],[0,0,0,0],[0,0,0,0],[0,0,0,0]] : Grid).length = 4 ∧
     (∀ r ∈ ([[2,0,0,0],[0,0,0,0],[0,0,0,0],[0,0,0,0]] : Grid), r.length = 4) ∧
     (∃ r ∈ ([[2,0,0,0],[0,0,0,0],[0,0,0,0],[0,0,0,0]] : Grid), ∃ x ∈ r, x ≠ 0) ∧
     can_make_move [[2,0,0,0],[0,0,0,0],[0,0,0,0],[0,0,0,0]] = true) ∧
    ((move_left [[2,0,0,0],[0,0,0,0],[0,0,0,0],[0,0,0,0]]).2 = true ∨
     (move_right [[2,0,0,0],[0,0,0,0],[0,0,0,0],[0,0,0,0]]).2 = true ∨
     (move_up [[2,0,0,0],[0,0,0,0],[0,0,0,0],[0,0,0,0]]).2 = true ∨
     (move_down [[2,0,0,0],[0,0,0,0],[0,0,0,0],[0,0,0,0]]).2 = true) :=
  ⟨⟨by decide, by decide, by decide, by decide⟩,
    claim_C4 [[2,0,0,0],[0,0,0,0],[0,0,0,0],[0,0,0,0]] (by decide) (by decide)
      (by decide) (by decide)⟩

/-! Run-of-three and no-cascading behaviour of the merge scan (claim C5). -/

set_option maxHeartbeats 4000000 in
theorem pipeL_run3 (a : Nat) (ha : a ≠ 0) :
    (pipeL ([a,a,a,0], false)).1 = [2*a, a, 0, 0] := by
  simp only [pipeL]
  rcases hq : compactL ([a,a,a,0], false) with ⟨cl, fl⟩
  have hcl : cl = [a,a,a,0] := by
    have h1 : (compactL ([a,a,a,0], false)).1 = compactL3 [a,a,a,0] := compactL_fst _ _
    rw [hq] at h1
    have h2 : cl = compactL3 [a,a,a,0] := h1
    rw [h2]
    exact compactL3_fix a a a 0 (by simp [compactedL, ha])
  subst hcl
  rw [mergeL_eq_mergeOnce a a a 0 fl]
  rw [show mergeOnce [a,a,a,0] = [2*a, 0, a, 0] from by simp [mergeOnce, mergeOnceF, ha]]
  simp only [compactL3]
  rw [show List.range' 1 ((([2*a,0,a,0] : List Nat)).length - 1) = [1,2,3] from rfl]
  simp only [List.foldl_cons, List.foldl_nil, slideN, swapAdj, List.getD]
  split_ifs <;> simp_all

set_option maxHeartbeats 4000000 in
theorem pipeL_nocascade (a : Nat) (ha : a ≠ 0) :
    (pipeL ([a,a,2*a,0], false)).1 = [2*a, 2*a, 0, 0] := by
  simp only [pipeL]
  rcases hq : compactL ([a,a,2*a,0], false) with ⟨cl, fl⟩
  have hcl : cl = [a,a,2*a,0] := by
    have h1 : (compactL ([a,a,2*a,0], false)).1 = compactL3 [a,a,2*a,0] := compactL_fst _ _
    rw [hq] at h1
    have h2 : cl = compactL3 [a,a,2*a,0] := h1
    rw [h2]
    exact compactL3_fix a a (2*a) 0 (by simp [compactedL, ha])
  subst hcl
  rw [mergeL_eq_mergeOnce a a (2*a) 0 fl]
  rw [show mergeOnce [a,a,2*a,0] = [2*a, 0, 2*a, 0] from by simp [mergeOnce, mergeOnceF, ha]]
  simp only [compactL3]
  rw [show List.range' 1 ((([2*a,0,2*a,0] : List Nat)).length - 1) = [1,2,3] from rfl]
  simp only [List.foldl_cons, List.foldl_nil, slideN, swapAdj, List.getD]
  split_ifs <;> simp_all

set_option maxHeartbeats 4000000 in
theorem pipeR_run3 (a : Nat) (ha : a ≠ 0) :
    (pipeR ([0,a,a,a], false)).1 = [0, 0, a, 2*a] := by
  simp only [pipeR]
  rcases hq : compactR ([0,a,a,a], false) with ⟨cl, fl⟩
  have hcl : cl = [0,a,a,a] := by
    have h1 : (compactR ([0,a,a,a], false)).1 = compactR3 [0,a,a,a] := compactR_fst _ _
    rw [hq] at h1
    have h2 : cl = compactR3 [0,a,a,a] := h1
    rw [h2]
    exact compactR3_fix 0 a a a (by simp [compactedR, ha])
  subst hcl
  rw [mergeR_eq_mergeOnceRev 0 a a a fl]
  rw [show mergeOnce [a,a,a,0] = [2*a, 0, a, 0] from by simp [mergeOnce, mergeOnceF, ha]]
  rw [show (([2*a, 0, a, 0] : List Nat)).reverse = [0, a, 0, 2*a] from by simp]
  simp only [compactR3]
  rw [show ((List.range ((([0,a,0,2*a] : List Nat)).length - 1)).reverse) = [2,1,0] from rfl]
  simp only [List.foldl_cons, List.foldl_nil, slideRN_length, slideRN, swapAdj, List.getD,
    List.length_cons, List.length_nil]
  split_ifs <;>
    simp_all [slideRN_length, slideRN, swapAdj, List.getD] <;>
    (try (split_ifs <;> simp_all [slideRN_length, slideRN, swapAdj, List.getD]))

set_option maxHeartbeats 4000000 in
theorem pipeR_nocascade (a : Nat) (ha : a ≠ 0) :
    (pipeR ([0,2*a,a,a], false)).1 = [0, 0, 2*a, 2*a] := by
  simp only [pipeR]
  rcases hq : compactR ([0,2*a,a,a], false) with ⟨cl, fl⟩
  have hcl : cl = [0,2*a,a,a] := by
    have h1 : (compactR ([0,2*a,a,a], false)).1 = compactR3 [0,2*a,a,a] := compactR_fst _ _
    rw [hq] at h1
    have h2 : cl = compactR3 [0,2*a,a,a] := h1
    rw [h2]
    exact compactR3_fix 0 (2*a) a a (by simp [compactedR, ha])
  subst hcl
  rw [mergeR_eq_mergeOnceRev 0 (2*a) a a fl]
  rw [show mergeOnce [a,a,2*a,0] = [2*a, 0, 2*a, 0] from by simp [mergeOnce, mergeOnceF, ha]]
  rw [show (([2*a, 0, 2*a, 0] : List Nat)).reverse = [0, 2*a, 0, 2*a] from by simp]
  simp only [compactR3]
  rw [show ((List.range ((([0,2*a,0,2*a] : List Nat)).length - 1)).reverse) = [2,1,0] from rfl]
  simp only [List.foldl_cons, List.foldl_nil, slideRN_length, slideRN, swapAdj, List.getD,
    List.length_cons, List.length_nil]
  split_ifs <;>
    simp_all [slideRN_length, slideRN, swapAdj, List.getD] <;>
    (try (split_ifs <;> simp_all [slideRN_length, slideRN, swapAdj, List.getD]))

/-- C5: `move_right` on `[[2,2,2,2],0,0,0]` yields first row `[0,0,4,4]` with
changed=true; the merge scan of every move equals the one-merge-per-tile scan
`mergeOnce` (so no tile is merged twice in a pass), and a run of three equal
tiles merges only the pair nearest the target end, leaving the third tile
unmerged. -/
theorem claim_C5 :
    ((move_right [[2,2,2,2],[0,0,0,0],[0,0,0,0],[0,0,0,0]]).1.getD 0 [] = [0,0,4,4] ∧
     (move_right [[2,2,2,2],[0,0,0,0],[0,0,0,0],[0,0,0,0]]).2 = true) ∧
    (∀ a b c d : Nat, ∀ m : Bool,
      (mergeLPass ([a,b,c,d], m)).1 = mergeOnce [a,b,c,d] ∧
      (mergeRPass ([a,b,c,d], m)).1 = (mergeOnce [d,c,b,a]).reverse) ∧
    (∀ a : Nat, a ≠ 0 →
      (pipeR ([0,a,a,a], false)).1 = [0, 0, a, 2*a] ∧
      (pipeL ([a,a,a,0], false)).1 = [2*a, a, 0, 0] ∧
      (pipeR ([0,2*a,a,a], false)).1 = [0, 0, 2*a, 2*a] ∧
      (pipeL ([a,a,2*a,0], false)).1 = [2*a, 2*a, 0, 0]) := by
  refine ⟨⟨by decide, by decide⟩, ?_, ?_⟩
  · intro a b c d m
    exact ⟨mergeL_eq_mergeOnce a b c d m, mergeR_eq_mergeOnceRev a b c d m⟩
  · intro a ha
    exact ⟨pipeR_run3 a ha, pipeL_run3 a ha, pipeR_nocascade a ha, pipeL_nocascade a ha⟩

/-- C5 witness: the run-of-three clauses instantiated at tile value 2. -/
theorem claim_C5_witness :
    (2 : Nat) ≠ 0 ∧
    ((pipeR ([0,2,2,2], false)).1 = [0, 0, 2, 2*2] ∧
     (pipeL ([2,2,2,0], false)).1 = [2*2, 2, 0, 0] ∧
     (pipeR ([0,2*2,2,2], false)).1 = [0, 0, 2*2, 2*2] ∧
     (pipeL ([2,2,2*2,0], false)).1 = [2*2, 2*2, 0, 0]) :=
  ⟨by decide, claim_C5.2.2 2 (by decide)⟩

end Game2048
